import Mathlib

/-!
Verification development for `misc/cmake_converter/scons_to_cmake.py`, a
SCons-to-CMake build-description converter.  The Python program is embedded
shallowly: its pure text-processing functions become Lean functions on
`String`/`List Char`, and its filesystem interaction becomes explicit state
passing over a small filesystem model (`FS`).  Python's `re` patterns are
hand-translated into deterministic matchers; at each point where a character
class in one of the concrete patterns is followed by a literal, the class
excludes that literal, so greedy/lazy backtracking is deterministic and the
straight-line translations below are exact for those patterns.

Note on the source: line 342 of `scons_to_cmake.py` is a stray `]` closing no
bracket (a Python syntax error), and lines 326-341 in the `else` branch of
`_generate_core_cmake_files` are orphaned expression statements that are never
appended to the `content` list.  The embedding models that function with the
stray bracket removed, i.e. the orphaned string expressions have no effect on
the emitted file, which is what the remaining well-formed statements do.
-/

set_option maxRecDepth 8000

namespace GodotCmake

/-- The double-quote character (written via its code point to keep string
handling simple). -/
def quoteC : Char := Char.ofNat 34

/-- The single-quote character. -/
def squoteC : Char := Char.ofNat 39

/-- Python whitespace characters: the default set stripped by `str.strip()`
and matched by `\s` (ASCII range; the inputs involved are ASCII). -/
def pySpace : List Char := [' ', '\t', '\n', '\r', Char.ofNat 11, Char.ofNat 12]

/-- Membership test in the Python whitespace set. -/
def isPySpace (c : Char) : Bool := pySpace.contains c

/-- Word characters matched by `\w` (ASCII range). -/
def isWordChar (c : Char) : Bool :=
  (decide (97 ≤ c.toNat) && decide (c.toNat ≤ 122)) ||
  (decide (65 ≤ c.toNat) && decide (c.toNat ≤ 90)) ||
  (decide (48 ≤ c.toNat) && decide (c.toNat ≤ 57)) ||
  (c.toNat == 95)

/-- Python `str.strip(chars)`: removes characters of `set` from both ends. -/
def stripEnds (set : List Char) (cs : List Char) : List Char :=
  ((cs.dropWhile (fun c => set.contains c)).reverse.dropWhile
      (fun c => set.contains c)).reverse

/-- The character set of Python `strip(' "\'')` used by the converter:
space, double quote, single quote. -/
def quoteStripSet : List Char := [' ', quoteC, squoteC]

/-- Python `text.split(sep)` for a single-character separator: splits on every
occurrence, keeping empty pieces (`"".split(',') == ['']`). -/
def splitOnChar (sep : Char) : List Char → List (List Char)
  | [] => [[]]
  | c :: rest =>
      if c = sep then [] :: splitOnChar sep rest
      else
        match splitOnChar sep rest with
        | g :: gs => (c :: g) :: gs
        | [] => [[c]]

/-- Match a literal pattern prefix, returning the rest of the input. -/
def dropPfx (p cs : List Char) : Option (List Char) :=
  if p.isPrefixOf cs then some (cs.drop p.length) else none

/-- Greedy `class+` followed by nothing yet: takes the maximal non-empty run of
characters satisfying `p`, failing on an empty run (regex `+`). -/
def takeClass1 (p : Char → Bool) (cs : List Char) : Option (List Char × List Char) :=
  if (cs.takeWhile p).isEmpty then none else some (cs.takeWhile p, cs.dropWhile p)

/-- Split at the first occurrence of character `c`: lazy `(.*?)c`.  Returns the
text before the first `c` and the text after it, or `none` if `c` is absent. -/
def splitAtChar (c : Char) : List Char → Option (List Char × List Char)
  | [] => none
  | x :: xs =>
      if x = c then some ([], xs)
      else (splitAtChar c xs).map (fun ab => (x :: ab.1, ab.2))

/-- Split at the first occurrence of the two-character sequence `))`:
lazy `(.*?)\)\)`. -/
def splitAtClose2 : List Char → Option (List Char × List Char)
  | [] => none
  | [_] => none
  | c :: d :: rest =>
      if c = ')' && d = ')' then some ([], rest)
      else (splitAtClose2 (d :: rest)).map (fun ab => (c :: ab.1, ab.2))

/-- Anchored matcher for `BoolVariable\("([^"]+)",\s*"([^"]+)",\s*(\w+)\)`
(scons_to_cmake.py line 54).  Each character class excludes the literal that
follows it, so the translation is deterministic and exact. -/
def matchBoolAt (cs : List Char) : Option (List Char × List Char × List Char) :=
  (dropPfx ("BoolVariable(".toList ++ [quoteC]) cs).bind fun cs =>
  (takeClass1 (fun c => c != quoteC) cs).bind fun nm =>
  (dropPfx [quoteC, ','] nm.2).bind fun cs =>
  (dropPfx [quoteC] (cs.dropWhile isPySpace)).bind fun cs =>
  (takeClass1 (fun c => c != quoteC) cs).bind fun ds =>
  (dropPfx [quoteC, ','] ds.2).bind fun cs =>
  (takeClass1 isWordChar (cs.dropWhile isPySpace)).bind fun df =>
  (dropPfx [')'] df.2).bind fun _ =>
  some (nm.1, ds.1, df.1)

/-- `re.search` for the BoolVariable pattern: leftmost anchored match. -/
def searchBool : List Char → Option (List Char × List Char × List Char)
  | [] => none
  | c :: rest =>
      match matchBoolAt (c :: rest) with
      | some r => some r
      | none => searchBool rest

/-- Anchored matcher for
`EnumVariable\("([^"]+)",\s*"([^"]+)",\s*"([^"]+)",\s*\((.*?)\)\)`
(scons_to_cmake.py line 64). -/
def matchEnumAt (cs : List Char) :
    Option (List Char × List Char × List Char × List Char) :=
  (dropPfx ("EnumVariable(".toList ++ [quoteC]) cs).bind fun cs =>
  (takeClass1 (fun c => c != quoteC) cs).bind fun nm =>
  (dropPfx [quoteC, ','] nm.2).bind fun cs =>
  (dropPfx [quoteC] (cs.dropWhile isPySpace)).bind fun cs =>
  (takeClass1 (fun c => c != quoteC) cs).bind fun ds =>
  (dropPfx [quoteC, ','] ds.2).bind fun cs =>
  (dropPfx [quoteC] (cs.dropWhile isPySpace)).bind fun cs =>
  (takeClass1 (fun c => c != quoteC) cs).bind fun df =>
  (dropPfx [quoteC, ','] df.2).bind fun cs =>
  (dropPfx ['('] (cs.dropWhile isPySpace)).bind fun cs =>
  (splitAtClose2 cs).bind fun vs =>
  some (nm.1, ds.1, df.1, vs.1)

/-- `re.search` for the EnumVariable pattern. -/
def searchEnum : List Char → Option (List Char × List Char × List Char × List Char)
  | [] => none
  | c :: rest =>
      match matchEnumAt (c :: rest) with
      | some r => some r
      | none => searchEnum rest

/-- Anchored matcher for `"\s*,\s*"([^"]+)"\s*,\s*"([^"]+)"\s*,\s*"([^"]+)"`
(scons_to_cmake.py line 75). -/
def matchStrAt (cs : List Char) : Option (List Char × List Char × List Char) :=
  (dropPfx [quoteC] cs).bind fun cs =>
  (dropPfx [','] (cs.dropWhile isPySpace)).bind fun cs =>
  (dropPfx [quoteC] (cs.dropWhile isPySpace)).bind fun cs =>
  (takeClass1 (fun c => c != quoteC) cs).bind fun nm =>
  (dropPfx [quoteC] nm.2).bind fun cs =>
  (dropPfx [','] (cs.dropWhile isPySpace)).bind fun cs =>
  (dropPfx [quoteC] (cs.dropWhile isPySpace)).bind fun cs =>
  (takeClass1 (fun c => c != quoteC) cs).bind fun ds =>
  (dropPfx [quoteC] ds.2).bind fun cs =>
  (dropPfx [','] (cs.dropWhile isPySpace)).bind fun cs =>
  (dropPfx [quoteC] (cs.dropWhile isPySpace)).bind fun cs =>
  (takeClass1 (fun c => c != quoteC) cs).bind fun df =>
  (dropPfx [quoteC] df.2).bind fun _ =>
  some (nm.1, ds.1, df.1)

/-- `re.search` for the string-variable pattern. -/
def searchStr : List Char → Option (List Char × List Char × List Char)
  | [] => none
  | c :: rest =>
      match matchStrAt (c :: rest) with
      | some r => some r
      | none => searchStr rest

/-- `re.search(r'opts\.Add\((.*?)\)', line)`: finds the first occurrence of
the literal `opts.Add(` and captures lazily up to the first `)` after it.
If there is no `)` after the first occurrence there is none after any later
occurrence either, so the whole search fails, matching `re.search`. -/
def searchOptsAdd : List Char → Option (List Char)
  | [] => none
  | c :: rest =>
      if ("opts.Add(".toList).isPrefixOf (c :: rest) then
        (splitAtChar ')' ((c :: rest).drop 9)).map Prod.fst
      else searchOptsAdd rest

/-- The default value stored in a parsed option dict: Python stores a `bool`
for BoolVariable options and a string otherwise. -/
inductive PyDefault
  | b (v : Bool)
  | s (v : String)
deriving DecidableEq

/-- The option dict produced by `_parse_option`: keys `type`, `name`, `desc`,
`default` and (for enums) `values`. -/
structure PyOption where
  type : String
  name : String
  desc : String
  dflt : PyDefault
  values : List String
deriving DecidableEq

/-- `_parse_option` (scons_to_cmake.py lines 44-84): extracts the argument text
of `opts.Add(...)` (up to the first `)`, since the outer pattern is lazy) and
tries the BoolVariable, EnumVariable and string patterns in order. -/
def _parse_option (line : String) : Option PyOption :=
  match searchOptsAdd line.toList with
  | none => none
  | some args =>
      match searchBool args with
      | some (name, desc, dflt) =>
          some ⟨"bool", String.mk name, String.mk desc,
                PyDefault.b (String.mk (dflt.map Char.toLower) == "true"), []⟩
      | none =>
          match searchEnum args with
          | some (name, desc, dflt, vals) =>
              some ⟨"enum", String.mk name, String.mk desc,
                    PyDefault.s (String.mk dflt),
                    (splitOnChar ',' vals).map
                      (fun v => String.mk (stripEnds quoteStripSet v))⟩
          | none =>
              match searchStr args with
              | some (name, desc, dflt) =>
                  some ⟨"string", String.mk name, String.mk desc,
                        PyDefault.s (String.mk dflt), []⟩
              | none => none

/-- `re.finditer(r'\[(.*?)\]', text)`: scans for `[`, captures lazily to the
first `]`, and continues after it; a `[` with no later `]` produces no further
matches.  The accumulator holds the current capture (reversed) while inside a
bracket. -/
def scanBrackets : List Char → Option (List Char) → List (List Char)
  | [], _ => []
  | c :: rest, none =>
      if c = '[' then scanBrackets rest (some [])
      else scanBrackets rest none
  | c :: rest, some acc =>
      if c = ']' then acc.reverse :: scanBrackets rest none
      else scanBrackets rest (some (c :: acc))

/-- The per-bracket list comprehension of `_extract_list_items`
(scons_to_cmake.py line 180): split the captured group on `,`, keep the items
whose whitespace-strip (`item.strip()`) is non-empty, and strip each kept item
with `strip(' "\'')`. -/
def bracket_items (g : List Char) : List String :=
  ((splitOnChar ',' g).filter (fun it => !(stripEnds pySpace it).isEmpty)).map
    (fun it => String.mk (stripEnds quoteStripSet it))

/-- `_extract_list_items` (scons_to_cmake.py lines 174-181): concatenation of
the items of every bracketed literal list in the text. -/
def _extract_list_items (text : String) : List String :=
  ((scanBrackets text.toList none).map bracket_items).flatten

/-! ## Filesystem model

The converter reads and writes files under one project root.  The model is a
list of existing directories plus an association list of files (path, content).
The order of the two lists models the on-disk enumeration order that
`Path.glob`/`glob.glob` expose (`os.scandir` order); permuting it models
shuffling the directory-listing order on disk.  Hidden (dot-prefixed) names
and paths where a file and a directory coincide are not modelled; `open(p,"w")`
fails when `p` is a directory or its parent directory does not exist, and
`Path.glob` on a missing directory yields nothing, as in Python. -/

/-- A filesystem state: existing directories and files with contents. -/
structure FS where
  dirs : List String
  files : List (String × String)
deriving DecidableEq

/-- Join two path segments with a slash (`Path.__truediv__`). -/
def pjoin (a b : String) : String := a ++ "/" ++ b

/-- The directory part of a path: everything before the last slash
(`""` when the path has no slash). -/
def dirname (p : String) : String :=
  String.mk ((((p.toList.reverse).dropWhile (fun c => c != '/')).drop 1).reverse)

/-- Read a file's content (first association wins). -/
def findFile : List (String × String) → String → Option String
  | [], _ => none
  | (q, c) :: rest, p => if q = p then some c else findFile rest p

/-- Overwrite a file in place if present, else append it at the end of the
listing (a new file shows up at the end of the modelled scandir order). -/
def setFile : List (String × String) → String → String → List (String × String)
  | [], p, c => [(p, c)]
  | (q, d) :: rest, p, c =>
      if q = p then (p, c) :: rest else (q, d) :: setFile rest p c

/-- `open(p, "w")` followed by a write: fails (exception) when `p` is a
directory or when its parent directory does not exist. -/
def writeFile (fs : FS) (p c : String) : Option FS :=
  if p ∈ fs.dirs then none
  else if dirname p ∈ fs.dirs then some ⟨fs.dirs, setFile fs.files p c⟩
  else none

/-- If `p` is an immediate child of `dir`, its (slash-free, non-empty) name. -/
def childNameL? (dir p : List Char) : Option (List Char) :=
  (dropPfx (dir ++ ['/']) p).bind fun rest =>
    if !rest.isEmpty && !(rest.contains '/') then some rest else none

/-- `Path(dir).glob("*")`: names of the immediate children of `dir`,
directories first then files, each in stored (listing) order.  A missing
directory has no children. -/
def listDir (fs : FS) (dir : String) : List String :=
  fs.dirs.filterMap (fun d => (childNameL? dir.toList d.toList).map String.mk) ++
  (fs.files.map Prod.fst).filterMap
    (fun p => (childNameL? dir.toList p.toList).map String.mk)

/-- `Path.exists()`: the path is a known directory or file. -/
def pathExists (fs : FS) (p : String) : Prop :=
  p ∈ fs.dirs ∨ p ∈ fs.files.map Prod.fst

instance (fs : FS) (p : String) : Decidable (pathExists fs p) := by
  unfold pathExists; infer_instance

/-- The extension suffixes of the source glob patterns
`['*.cpp', '*.c', '*.h', '*.hpp', '*.inc']` (lines 312 and 376). -/
def srcExts : List String := [".cpp", ".c", ".h", ".hpp", ".inc"]

/-- Whether `p` lies (at any depth) under directory `dir`, as matched by the
recursive pattern `dir/**/X`. -/
def underDir (dir p : String) : Bool :=
  ((dir ++ "/").toList).isPrefixOf p.toList

/-- Whether `p` ends with the extension suffix `ext` (`*.cpp` matches a name
ending in `.cpp`); checked on the reversed character list. -/
def extMatch (ext p : String) : Bool :=
  (ext.toList.reverse).isPrefixOf p.toList.reverse

/-- `os.path.relpath(file, dir)` for a file under `dir`. -/
def relPath (dir p : String) : String :=
  String.mk (p.toList.drop (dir.toList.length + 1))

/-- The source-discovery loop shared by `_generate_core_cmake_files`
(lines 311-315) and `_generate_module_cmake_files` (lines 375-379): for each
extension pattern in order, every matching file under the directory in listing
order, rendered as an indented relative path. -/
def discoverSources (fs : FS) (dir : String) : List String :=
  srcExts.flatMap (fun ext =>
    ((fs.files.map Prod.fst).filter (fun p => underDir dir p && extMatch ext p)).map
      (fun p => "    " ++ relPath dir p))

/-! ## Collection -/

/-- The platform configuration dict built by `_parse_platform_detect`. -/
structure PlatformConfig where
  name : String
  defines : List String
  libs : List String
  includes : List String
  flags : List String
deriving DecidableEq

/-- The module configuration dict built by `_parse_module`. -/
structure ModuleConfig where
  name : String
  sources : List String
  deps : List String
  defines : List String
  includes : List String
deriving DecidableEq

/-- Capture for the lazy group of `(.*?)(?=def|\Z)`: everything up to the
first occurrence of `def`, or to the end of the text. -/
def captureToDef : List Char → List Char
  | [] => []
  | c :: rest =>
      if ("def".toList).isPrefixOf (c :: rest) then []
      else c :: captureToDef rest

/-- Anchored matcher for `def\s+NAME\(\):\s*(.*?)(?=def|\Z)` with DOTALL,
where `anchor` is the literal `NAME():`.  The classes `\s+`/`\s*` cannot
consume the letters that follow them, so the translation is exact. -/
def matchFuncBodyAt (anchor : List Char) (cs : List Char) : Option (List Char) :=
  (dropPfx ("def".toList) cs).bind fun cs =>
  (takeClass1 isPySpace cs).bind fun ws =>
  (dropPfx anchor ws.2).bind fun cs =>
  some (captureToDef (cs.dropWhile isPySpace))

/-- `re.search` for the function-body pattern. -/
def searchFuncBody (anchor : List Char) : List Char → Option (List Char)
  | [] => none
  | c :: rest =>
      match matchFuncBodyAt anchor (c :: rest) with
      | some r => some r
      | none => searchFuncBody anchor rest

/-- `_parse_platform_detect` (lines 104-129): starts from an all-empty config
and extends only `flags` and `libs` from the `get_flags`/`get_libs` bodies. -/
def _parse_platform_detect (platform : String) (content : String) : PlatformConfig :=
  let flags :=
    match searchFuncBody ("get_flags():".toList) content.toList with
    | some body => _extract_list_items (String.mk body)
    | none => []
  let libs :=
    match searchFuncBody ("get_libs():".toList) content.toList with
    | some body => _extract_list_items (String.mk body)
    | none => []
  ⟨platform, [], libs, [], flags⟩

/-- The platforms root `root/platform`. -/
def platformRootDir (root : String) : String := pjoin root "platform"

/-- The modules root `root/modules`. -/
def modulesRootDir (root : String) : String := pjoin root "modules"

/-- `_parse_platform_configs` (lines 86-102): immediate children of the
platforms root that are directories and contain `detect.py`; others are
skipped entirely. -/
def _parse_platform_configs (fs : FS) (root : String) : List (String × PlatformConfig) :=
  (listDir fs (platformRootDir root)).filterMap (fun name =>
    if pjoin (platformRootDir root) name ∈ fs.dirs then
      match findFile fs.files
          (pjoin (pjoin (platformRootDir root) name) "detect.py") with
      | some content => some (name, _parse_platform_detect name content)
      | none => none
    else none)

/-- Substring containment (Python `in` on strings). -/
def containsSub (needle : List Char) : List Char → Bool
  | [] => needle.isEmpty
  | c :: rest => needle.isPrefixOf (c :: rest) || containsSub needle rest

/-- `_parse_module` (lines 145-172): an all-empty config, with `sources` and
`deps` extracted from the `SCsub` manifest's anchored lines when it exists. -/
def _parse_module (fs : FS) (root : String) (name : String) : ModuleConfig :=
  match findFile fs.files (pjoin (pjoin (modulesRootDir root) name) "SCsub") with
  | none => ⟨name, [], [], [], []⟩
  | some content =>
      let lines := splitOnChar '\n' content.toList
      let sources :=
        (lines.filter (fun l => containsSub ("env.add_source_files".toList) l)).flatMap
          (fun l => _extract_list_items (String.mk l))
      let deps :=
        (lines.filter (fun l => containsSub ("env.Depends".toList) l)).flatMap
          (fun l => _extract_list_items (String.mk l))
      ⟨name, sources, deps, [], []⟩

/-- `_parse_modules` (lines 131-143): every immediate child directory of the
modules root materializes an entry, manifest or not. -/
def _parse_modules (fs : FS) (root : String) : List (String × ModuleConfig) :=
  (listDir fs (modulesRootDir root)).filterMap (fun name =>
    if pjoin (modulesRootDir root) name ∈ fs.dirs then
      some (name, _parse_module fs root name)
    else none)

/-- Insert into a Python dict modelled as an association list: replacing an
existing key keeps its position, a fresh key is appended. -/
def assocSet : List (String × PyOption) → String → PyOption → List (String × PyOption)
  | [], k, v => [(k, v)]
  | (k0, v0) :: rest, k, v =>
      if k0 = k then (k, v) :: rest else (k0, v0) :: assocSet rest k v

/-- The option-collection loop of `_parse_sconstruct` (lines 36-42) applied to
the file content: lines whose whitespace-strip starts with `opts.Add(` are fed
to `_parse_option`; name collisions replace the stored option. -/
def _parse_sconstruct_content (content : String) : List (String × PyOption) :=
  (splitOnChar '\n' content.toList).foldl (fun opts lineL =>
    if ("opts.Add(".toList).isPrefixOf (stripEnds pySpace lineL) then
      match _parse_option (String.mk lineL) with
      | some o => assocSet opts o.name o
      | none => opts
    else opts) []

/-! ## Emission -/

/-- Join emitted lines as the Python `"\n".join(content)`. -/
def joinLines (lines : List String) : String := String.intercalate "\n" lines

/-- Per-option lines of the root emitter (lines 198-206). -/
def optionLines (o : PyOption) : List String :=
  if o.type = "bool" then
    ["option(" ++ o.name ++ " \"" ++ o.desc ++ "\" " ++
      (match o.dflt with
       | PyDefault.b true => "TRUE"
       | PyDefault.b false => "FALSE"
       | PyDefault.s v => String.mk (v.toList.map Char.toUpper)) ++ ")"]
  else if o.type = "string" then
    ["set(" ++ o.name ++ " \"" ++
      (match o.dflt with
       | PyDefault.s v => v
       | PyDefault.b true => "True"
       | PyDefault.b false => "False") ++
      "\" CACHE STRING \"" ++ o.desc ++ "\")"]
  else if o.type = "enum" then
    ["set(" ++ o.name ++ " \"" ++
      (match o.dflt with
       | PyDefault.s v => v
       | PyDefault.b true => "True"
       | PyDefault.b false => "False") ++
      "\" CACHE STRING \"" ++ o.desc ++ "\")",
     "set_property(CACHE " ++ o.name ++ " PROPERTY STRINGS " ++
      String.intercalate ";" o.values ++ ")"]
  else []

/-- The content of the root `CMakeLists.txt` (lines 183-250). -/
def root_cmakelists_lines (options : List (String × PyOption)) : List String :=
  ["cmake_minimum_required(VERSION 3.20)",
   "project(godot)",
   "",
   "# Global settings",
   "set(CMAKE_CXX_STANDARD 17)",
   "set(CMAKE_CXX_STANDARD_REQUIRED ON)",
   "set(CMAKE_POSITION_INDEPENDENT_CODE ON)",
   "",
   "# Options"] ++
  options.flatMap (fun kv => optionLines kv.2) ++
  ["",
   "# Platform detection",
   "if(WIN32)",
   "    set(PLATFORM_NAME windows)",
   "elseif(APPLE)",
   "    set(PLATFORM_NAME macos)",
   "elseif(UNIX)",
   "    set(PLATFORM_NAME linuxbsd)",
   "endif()",
   "",
   "# Include platform-specific configuration",
   "include(cmake/platform_${PLATFORM_NAME}.cmake)",
   "",
   "# Add subdirectories",
   "add_subdirectory(core)",
   "add_subdirectory(drivers)",
   "add_subdirectory(main)",
   "add_subdirectory(modules)",
   "add_subdirectory(platform)",
   "add_subdirectory(scene)",
   "add_subdirectory(servers)",
   "",
   "# Main executable",
   "add_executable(godot",
   "    main/main.cpp",
   ")",
   "",
   "target_link_libraries(godot",
   "    PRIVATE",
   "    core",
   "    drivers",
   "    main",
   "    platform",
   "    scene",
   "    servers",
   "    ${CMAKE_THREAD_LIBS_INIT}",
   "    ${OPENGL_LIBRARIES}",
   "    ${X11_LIBRARIES}",
   "    ${ZLIB_LIBRARIES}",
   ")"]

/-- The compile-options block (lines 269-274): present iff `flags` non-empty. -/
def flag_block (config : PlatformConfig) : List String :=
  if config.flags.isEmpty then [] else
    ["add_compile_options("] ++ config.flags.map (fun f => "    " ++ f) ++ [")", ""]

/-- The compile-definitions block (lines 277-282): present iff `defines`
non-empty. -/
def define_block (config : PlatformConfig) : List String :=
  if config.defines.isEmpty then [] else
    ["add_compile_definitions("] ++ config.defines.map (fun d => "    " ++ d) ++ [")", ""]

/-- The link-libraries block (lines 285-289): present iff `libs` non-empty. -/
def lib_block (config : PlatformConfig) : List String :=
  if config.libs.isEmpty then [] else
    ["target_link_libraries(godot PRIVATE"] ++ config.libs.map (fun l => "    " ++ l) ++ [")"]

/-- The content lines of one platform file (lines 262-289): the header, then
each block only when its list is non-empty. -/
def platform_cmake_lines (platform : String) (config : PlatformConfig) : List String :=
  ["# Platform configuration for " ++ platform,
   "",
   "# Compiler flags"] ++
  flag_block config ++ define_block config ++ lib_block config

/-- The content lines of one core-library file (lines 304-342).  When no
sources were discovered only the header is emitted: the strings on lines
326-341 are orphaned expression statements in the `else` branch (see the file
header) and never reach `content`. -/
def core_cmake_lines (lib : String) (sources : List String) : List String :=
  ["# " ++ lib ++ " library",
   "",
   "set(LIB_SOURCES"] ++
  (if sources.isEmpty then [] else
    sources ++ [")", "", "add_library(" ++ lib ++ " STATIC ${LIB_SOURCES})"])

/-- The content lines of one module file (lines 367-409): include directories
are always appended, the dependency block only when `deps` is non-empty. -/
def module_cmake_lines (m : String) (cfg : ModuleConfig) (sources : List String) :
    List String :=
  ["# " ++ m ++ " module",
   "",
   "set(MODULE_SOURCES"] ++
  (if sources.isEmpty then [] else
    sources ++ [")", "", "add_library(" ++ m ++ " STATIC ${MODULE_SOURCES})", ""]) ++
  ["target_include_directories(" ++ m,
   "    PUBLIC",
   "        ${CMAKE_CURRENT_SOURCE_DIR}",
   "        ${CMAKE_SOURCE_DIR}",
   ")",
   ""] ++
  (if cfg.deps.isEmpty then [] else
    ["target_link_libraries(" ++ m, "    PRIVATE"] ++
    cfg.deps.map (fun d => "        " ++ d) ++ [")"])

/-! ## The pipeline -/

/-- The state of a run: filesystem, files written so far (path and content, in
order), warning diagnostics printed so far, and whether the run is still alive
(`ok = false` after an uncaught exception; nothing further executes). -/
structure RunResult where
  fs : FS
  writes : List (String × String)
  msgs : List String
  ok : Bool
deriving DecidableEq

/-- Perform one generated-file write; a write failure is an uncaught exception
ending the run. -/
def writeStep (r : RunResult) (p c : String) : RunResult :=
  if r.ok then
    match writeFile r.fs p c with
    | some fs' => ⟨fs', r.writes ++ [(p, c)], r.msgs, true⟩
    | none => ⟨r.fs, r.writes, r.msgs, false⟩
  else r

/-- `Path.mkdir(exist_ok=True)`: succeeds if the directory exists, fails if a
file of that name exists or the parent directory is missing. -/
def mkdirStep (r : RunResult) (p : String) : RunResult :=
  if r.ok then
    if p ∈ r.fs.dirs then r
    else if p ∈ r.fs.files.map Prod.fst then ⟨r.fs, r.writes, r.msgs, false⟩
    else if dirname p ∈ r.fs.dirs then
      ⟨⟨r.fs.dirs ++ [p], r.fs.files⟩, r.writes, r.msgs, true⟩
    else ⟨r.fs, r.writes, r.msgs, false⟩
  else r

/-- Record a warning diagnostic (the two `Warning:` prints; informational
progress prints are not part of any claim and are not modelled). -/
def warn (r : RunResult) (m : String) : RunResult :=
  if r.ok then ⟨r.fs, r.writes, r.msgs ++ [m], true⟩ else r

/-- `_generate_root_cmakelists` (lines 183-254): writes the root file. -/
def _generate_root_cmakelists (root : String) (options : List (String × PyOption))
    (r : RunResult) : RunResult :=
  writeStep r (pjoin root "CMakeLists.txt") (joinLines (root_cmakelists_lines options))

/-- `_generate_platform_cmake_files` (lines 256-293): ensures `root/cmake`
exists, then writes one file per collected platform. -/
def _generate_platform_cmake_files (root : String)
    (configs : List (String × PlatformConfig)) (r : RunResult) : RunResult :=
  let r := mkdirStep r (pjoin root "cmake")
  configs.foldl (fun r pc =>
    writeStep r (pjoin (pjoin root "cmake") ("platform_" ++ pc.1 ++ ".cmake"))
      (joinLines (platform_cmake_lines pc.1 pc.2))) r

/-- The fixed top-level library names (line 297). -/
def core_libs : List String := ["core", "drivers", "main", "platform", "scene", "servers"]

/-- One iteration of the core-library loop (lines 299-346): skip a missing
library directory, warn when no sources are discovered, write the file. -/
def emitCoreLib (root : String) (r : RunResult) (lib : String) : RunResult :=
  if pathExists r.fs (pjoin root lib) then
    writeStep
      (if (discoverSources r.fs (pjoin root lib)).isEmpty then
        warn r ("Warning: No source files found for library " ++ lib ++ " in " ++
          pjoin root lib)
      else r)
      (pjoin (pjoin root lib) "CMakeLists.txt")
      (joinLines (core_cmake_lines lib (discoverSources r.fs (pjoin root lib))))
  else r

/-- `_generate_core_cmake_files` (lines 295-346). -/
def _generate_core_cmake_files (root : String) (r : RunResult) : RunResult :=
  core_libs.foldl (emitCoreLib root) r

/-- One iteration of the per-module loop (lines 366-413). -/
def emitModuleFile (root : String) (r : RunResult) (mc : String × ModuleConfig) :
    RunResult :=
  writeStep
    (if (discoverSources r.fs (pjoin (modulesRootDir root) mc.1)).isEmpty then
      warn r ("Warning: No source files found for module " ++ mc.1 ++ " in " ++
        pjoin (modulesRootDir root) mc.1)
    else r)
    (pjoin (pjoin (modulesRootDir root) mc.1) "CMakeLists.txt")
    (joinLines (module_cmake_lines mc.1 mc.2
      (discoverSources r.fs (pjoin (modulesRootDir root) mc.1))))

/-- `_generate_module_cmake_files` (lines 348-413): writes the umbrella file
into the modules root, then one file per module. -/
def _generate_module_cmake_files (root : String)
    (modules : List (String × ModuleConfig)) (r : RunResult) : RunResult :=
  let umbrella := joinLines (["# Godot modules", ""] ++
    modules.map (fun mc => "add_subdirectory(" ++ mc.1 ++ ")"))
  let r := writeStep r (pjoin (modulesRootDir root) "CMakeLists.txt") umbrella
  modules.foldl (emitModuleFile root) r

/-- `convert` (lines 12-25): a missing/unreadable `SConstruct` is an uncaught
exception before anything is generated; otherwise collect, then emit. -/
def convert (root : String) (fs : FS) : RunResult :=
  match findFile fs.files (pjoin root "SConstruct") with
  | none => ⟨fs, [], [], false⟩
  | some content =>
      let options := _parse_sconstruct_content content
      let platforms := _parse_platform_configs fs root
      let modules := _parse_modules fs root
      let r := _generate_root_cmakelists root options ⟨fs, [], [], true⟩
      let r := _generate_platform_cmake_files root platforms r
      let r := _generate_core_cmake_files root r
      _generate_module_cmake_files root modules r

/-- The process exit status of `main` (lines 415-431): 1 when the argument is
not a directory, 1 when `convert` dies on an uncaught exception, else 0. -/
def main_exit (root : String) (fs : FS) : Nat :=
  if root ∈ fs.dirs then (if (convert root fs).ok then 0 else 1) else 1

/-- Well-formed filesystem: every file's parent is an existing directory, and
every directory other than a root-level one has an existing parent. -/
def FS.wf (fs : FS) : Prop :=
  (∀ pc ∈ fs.files, dirname pc.1 ∈ fs.dirs) ∧
  (∀ d ∈ fs.dirs, dirname d = "" ∨ dirname d ∈ fs.dirs)

instance (fs : FS) : Decidable fs.wf := by
  unfold FS.wf; infer_instance

/-! ## Basic lemmas about the pattern matchers -/

theorem splitAtChar_not_mem {c : Char} :
    ∀ {cs : List Char} {ab : List Char × List Char},
      splitAtChar c cs = some ab → c ∉ ab.1
  | [], _, h => by simp [splitAtChar] at h
  | x :: xs, ab, h => by
    rw [splitAtChar] at h
    split at h
    · cases h; simp
    · rename_i hxc
      rcases Option.map_eq_some'.mp h with ⟨ab', hab', rfl⟩
      have := splitAtChar_not_mem hab'
      simp only [List.mem_cons]
      rintro (rfl | hm)
      · exact hxc rfl
      · exact this hm

theorem searchOptsAdd_not_paren :
    ∀ {l args : List Char}, searchOptsAdd l = some args → ')' ∉ args
  | [], _, h => by simp [searchOptsAdd] at h
  | c :: rest, args, h => by
    rw [searchOptsAdd] at h
    split at h
    · rcases Option.map_eq_some'.mp h with ⟨ab, hab, rfl⟩
      exact splitAtChar_not_mem hab
    · exact searchOptsAdd_not_paren h

theorem dropPfx_suffix {p cs r : List Char} (h : dropPfx p cs = some r) : r <:+ cs := by
  unfold dropPfx at h
  split at h
  · cases h; exact List.drop_suffix ..
  · cases h

theorem takeClass1_suffix {p : Char → Bool} {cs : List Char} {tr : List Char × List Char}
    (h : takeClass1 p cs = some tr) : tr.2 <:+ cs := by
  unfold takeClass1 at h
  split at h
  · cases h
  · cases h; exact List.dropWhile_suffix ..

theorem splitAtClose2_mem :
    ∀ {cs : List Char} {ab : List Char × List Char},
      splitAtClose2 cs = some ab → ')' ∈ cs
  | [], _, h => by simp [splitAtClose2] at h
  | [_], _, h => by simp [splitAtClose2] at h
  | c :: d :: rest, ab, h => by
    rw [splitAtClose2] at h
    split at h
    · rename_i hcd
      have : c = ')' := by
        rcases Bool.and_eq_true .. |>.mp hcd with ⟨h1, _⟩
        exact decide_eq_true_iff.mp h1
      simp [this]
    · rcases Option.map_eq_some'.mp h with ⟨ab', hab', rfl⟩
      exact List.mem_cons_of_mem _ (splitAtClose2_mem hab')

/-- If a text holds no closing parenthesis, the anchored EnumVariable matcher
cannot succeed: its final step consumes a `))` from a suffix of the text. -/
theorem matchEnumAt_paren {cs : List Char}
    {r : List Char × List Char × List Char × List Char}
    (h : matchEnumAt cs = some r) : ')' ∈ cs := by
  simp only [matchEnumAt, Option.bind_eq_some] at h
  obtain ⟨s1, h1, h⟩ := h
  obtain ⟨nm, h2, h⟩ := h
  obtain ⟨s3, h3, h⟩ := h
  obtain ⟨s4, h4, h⟩ := h
  obtain ⟨ds, h5, h⟩ := h
  obtain ⟨s6, h6, h⟩ := h
  obtain ⟨s7, h7, h⟩ := h
  obtain ⟨df, h8, h⟩ := h
  obtain ⟨s9, h9, h⟩ := h
  obtain ⟨s10, h10, h⟩ := h
  obtain ⟨vs, h11, _⟩ := h
  have t1 : s1 <:+ cs := dropPfx_suffix h1
  have t2 : nm.2 <:+ s1 := takeClass1_suffix h2
  have t3 : s3 <:+ nm.2 := dropPfx_suffix h3
  have t4 : s4 <:+ s3 := (dropPfx_suffix h4).trans (List.dropWhile_suffix _)
  have t5 : ds.2 <:+ s4 := takeClass1_suffix h5
  have t6 : s6 <:+ ds.2 := dropPfx_suffix h6
  have t7 : s7 <:+ s6 := (dropPfx_suffix h7).trans (List.dropWhile_suffix _)
  have t8 : df.2 <:+ s7 := takeClass1_suffix h8
  have t9 : s9 <:+ df.2 := dropPfx_suffix h9
  have t10 : s10 <:+ s9 := (dropPfx_suffix h10).trans (List.dropWhile_suffix _)
  have hmem : ')' ∈ s10 := splitAtClose2_mem h11
  exact t1.subset (t2.subset (t3.subset (t4.subset (t5.subset (t6.subset
    (t7.subset (t8.subset (t9.subset (t10.subset hmem)))))))))

theorem searchEnum_none :
    ∀ {cs : List Char}, ')' ∉ cs → searchEnum cs = none
  | [], _ => rfl
  | c :: rest, h => by
    rw [searchEnum]
    have hm : matchEnumAt (c :: rest) = none := by
      cases he : matchEnumAt (c :: rest) with
      | none => rfl
      | some r => exact absurd (matchEnumAt_paren he) h
    rw [hm]
    exact searchEnum_none (fun hr => h (List.mem_cons_of_mem _ hr))

/-! ## Lemmas about the bracket scanner -/

theorem scanBrackets_append_none {xs : List Char} (ys : List Char)
    (h : '[' ∉ xs) : scanBrackets (xs ++ ys) none = scanBrackets ys none := by
  induction xs with
  | nil => rfl
  | cons c rest ih =>
    have hc : c ≠ '[' := fun e => h (e ▸ List.mem_cons_self ..)
    rw [List.cons_append, scanBrackets, if_neg hc]
    exact ih (fun hr => h (List.mem_cons_of_mem _ hr))

theorem scanBrackets_inside {body : List Char} (rest : List Char)
    (acc : List Char) (h : ']' ∉ body) :
    scanBrackets (body ++ ']' :: rest) (some acc) =
      (acc.reverse ++ body) :: scanBrackets rest none := by
  induction body generalizing acc with
  | nil => simp [scanBrackets]
  | cons c body' ih =>
    have hc : c ≠ ']' := fun e => h (e ▸ List.mem_cons_self ..)
    rw [List.cons_append, scanBrackets, if_neg hc,
      ih _ (fun hr => h (List.mem_cons_of_mem _ hr))]
    simp

/-! ## Claim C1: the three option shapes -/

/-- C1: the boolean declaration shape from `_parse_option`'s own docstring
(line 46) is rejected: the outer pattern `opts\.Add\((.*?)\)` captures lazily
up to the first `)`, so the captured argument text never contains the closing
parenthesis that the BoolVariable (and EnumVariable) patterns require, and the
extractor returns `none` instead of the documented option. -/
theorem c1_docstring_bool_example_rejected :
    _parse_option
      "opts.Add(BoolVariable(\"builtin_freetype\", \"Use builtin FreeType library\", True))"
      = none ∧
    _parse_option
      "opts.Add(EnumVariable(\"target\", \"Compilation target\", \"editor\", (\"editor\", \"template_release\")))"
      = none ∧
    _parse_option "opts.Add((\"custom_modules\", \"Path to custom modules\", \"\"))"
      = none := by
  refine ⟨by decide, by decide, by decide⟩

/-! ## Claim C8: the enum-option invariant -/

/-- The invariant claimed for enum options: non-empty `values` containing the
default (rendered as a boolean predicate on an extraction result). -/
def enumInvariant : Option PyOption → Bool
  | none => true
  | some o =>
      if o.type = "enum" then
        !o.values.isEmpty &&
        (match o.dflt with
         | PyDefault.s v => o.values.contains v
         | PyDefault.b _ => false)
      else true

/-- C8: every option produced by `_parse_option` satisfies the enum invariant.
This holds vacuously: the captured argument text never contains `)` (see C1),
and the EnumVariable pattern requires `))`, so no option of kind enum is ever
produced. -/
theorem c8_enum_options_wellformed (line : String) :
    enumInvariant (_parse_option line) = true := by
  cases h : searchOptsAdd line.data with
  | none => simp [_parse_option, String.toList, h, enumInvariant]
  | some args =>
    have hargs := searchOptsAdd_not_paren h
    cases hb : searchBool args with
    | some r =>
      obtain ⟨n, d, f⟩ := r
      simp [_parse_option, String.toList, h, hb, enumInvariant]
    | none =>
      cases hs : searchStr args with
      | some r =>
        obtain ⟨n, d, f⟩ := r
        simp [_parse_option, String.toList, h, hb, searchEnum_none hargs, hs,
          enumInvariant]
      | none =>
        simp [_parse_option, String.toList, h, hb, searchEnum_none hargs, hs,
          enumInvariant]

/-! ## Claim C4: bracketed-list extraction -/

/-- C4 counterexample: the element `" "` of `[" "]` strips (by whitespace) to
the non-empty `" "`, so it is kept, and then strips (by `' "\''`) to the empty
string: the extractor returns a singleton empty token instead of skipping it. -/
theorem c4_counterexample_empty_token :
    _extract_list_items "[\" \"]" = [""] := by decide

/-- C4 (amended): `_extract_list_items` concatenates, in order of appearance,
the per-bracket items of every bracketed list, where a bracket's items are the
comma-separated elements whose whitespace-strip is non-empty, each stripped of
surrounding whitespace and quotes (`bracket_items`). -/
theorem c4_bracket_lists_concatenated (s₁ body s₂ : String)
    (h1 : '[' ∉ s₁.toList) (h2 : ']' ∉ body.toList) :
    _extract_list_items (s₁ ++ "[" ++ body ++ "]" ++ s₂) =
      bracket_items body.toList ++ _extract_list_items s₂ := by
  unfold _extract_list_items
  have hb : ("[" : String).toList = ['['] := rfl
  have hk : ("]" : String).toList = [']'] := rfl
  have hdata : (s₁ ++ "[" ++ body ++ "]" ++ s₂).toList
      = s₁.toList ++ ('[' :: (body.toList ++ (']' :: s₂.toList))) := by
    show (s₁ ++ "[" ++ body ++ "]" ++ s₂).data = _
    simp only [String.data_append]
    show s₁.toList ++ ("[" : String).toList ++ body.toList ++
        ("]" : String).toList ++ s₂.toList = _
    rw [hb, hk]
    simp
  rw [hdata, scanBrackets_append_none _ h1, scanBrackets, if_pos rfl,
    scanBrackets_inside _ _ h2]
  simp

/-- Witness for C4's amended theorem at concrete inputs. -/
theorem c4_bracket_lists_concatenated_witness :
    '[' ∉ ("x = ".toList) ∧ ']' ∉ ("'a', , \" b\"".toList) ∧
    _extract_list_items ("x = " ++ "[" ++ "'a', , \" b\"" ++ "]" ++ " + [c]") =
      bracket_items ("'a', , \" b\"".toList) ++ _extract_list_items " + [c]" :=
  ⟨by decide, by decide,
   c4_bracket_lists_concatenated "x = " "'a', , \" b\"" " + [c]" (by decide) (by decide)⟩

/-! ## Claim C2: determinism under directory-listing order -/

/-- A library directory holding `b.cpp` before `a.cpp` in listing order. -/
def c2fsA : FS := ⟨["r", "r/core"], [("r/core/b.cpp", ""), ("r/core/a.cpp", "")]⟩

/-- The same filesystem contents with the listing order of the two source
files swapped. -/
def c2fsB : FS := ⟨["r", "r/core"], [("r/core/a.cpp", ""), ("r/core/b.cpp", "")]⟩

/-- C2 counterexample: two filesystems with identical contents but different
listing order.  The emitted source list follows listing order (not
lexicographic order: `b.cpp` is emitted before `a.cpp` on `c2fsA`), and the
emitted library file differs byte-wise between the two runs. -/
theorem c2_counterexample_listing_order :
    c2fsA.files.Perm c2fsB.files ∧
    discoverSources c2fsA "r/core" = ["    b.cpp", "    a.cpp"] ∧
    discoverSources c2fsB "r/core" = ["    a.cpp", "    b.cpp"] ∧
    joinLines (core_cmake_lines "core" (discoverSources c2fsA "r/core")) ≠
      joinLines (core_cmake_lines "core" (discoverSources c2fsB "r/core")) := by
  refine ⟨by decide, by decide, by decide, by decide⟩

/-- C2 (amended): discovery is a filter of the file listing, so permuting the
on-disk listing order permutes the discovered source list (same multiset, order
not preserved; byte-identical output is only guaranteed for an identical
listing order). -/
theorem c2_sources_stable_up_to_permutation (fsA fsB : FS) (d : String)
    (h : fsA.files.Perm fsB.files) :
    (discoverSources fsA d).Perm (discoverSources fsB d) := by
  unfold discoverSources
  have base : (fsA.files.map Prod.fst).Perm (fsB.files.map Prod.fst) := h.map _
  simp only [srcExts, List.flatMap_cons, List.flatMap_nil, List.append_nil]
  exact ((base.filter _).map _).append (((base.filter _).map _).append
    (((base.filter _).map _).append (((base.filter _).map _).append
      ((base.filter _).map _))))

/-- Witness for C2's amended theorem at concrete inputs. -/
theorem c2_sources_stable_up_to_permutation_witness :
    c2fsA.files.Perm c2fsB.files ∧
    (discoverSources c2fsA "r/core").Perm (discoverSources c2fsB "r/core") :=
  ⟨by decide, c2_sources_stable_up_to_permutation c2fsA c2fsB "r/core" (by decide)⟩

/-! ## String-head helpers -/

theorem head_append (pre x : String) (c : Char) (h : pre.data.head? = some c) :
    (pre ++ x).data.head? = some c := by
  cases hp : pre.data with
  | nil => rw [hp] at h; cases h
  | cons a t =>
    rw [hp] at h
    rw [String.data_append, hp, List.cons_append, List.head?_cons]
    exact h

theorem ne_of_head_ne {a b : String} {c₁ c₂ : Char}
    (ha : a.data.head? = some c₁) (hb : b.data.head? = some c₂) (hc : c₁ ≠ c₂) :
    a ≠ b := by
  intro e
  rw [e, hb] at ha
  exact hc (Option.some.inj ha).symm

theorem not_mem_map_indent {s pre : String} {l : List String} {c : Char}
    (hpre : pre.data.head? = some ' ') (hs : s.data.head? = some c) (hc : c ≠ ' ') :
    s ∉ l.map (fun f => pre ++ f) := by
  intro hm
  rcases List.mem_map.mp hm with ⟨a, _, rfl⟩
  exact ne_of_head_ne hs (head_append pre a ' ' hpre) hc rfl

/-! ## Platform-emitter block membership -/

theorem mem_flag_block {s : String} {cfg : PlatformConfig} (h : s ∈ flag_block cfg) :
    cfg.flags ≠ [] ∧
      (s = "add_compile_options(" ∨ s.data.head? = some ' ' ∨ s = ")" ∨ s = "") := by
  unfold flag_block at h
  split at h
  · cases h
  · rename_i hne
    refine ⟨fun e => hne (by simp [e]), ?_⟩
    simp only [List.append_assoc, List.mem_append, List.mem_cons, List.mem_map,
      List.not_mem_nil, or_false] at h
    rcases h with h | ⟨a, _, rfl⟩ | h | h
    · exact Or.inl h
    · exact Or.inr (Or.inl (head_append _ _ _ rfl))
    · exact Or.inr (Or.inr (Or.inl h))
    · exact Or.inr (Or.inr (Or.inr h))

theorem mem_define_block {s : String} {cfg : PlatformConfig}
    (h : s ∈ define_block cfg) :
    cfg.defines ≠ [] ∧
      (s = "add_compile_definitions(" ∨ s.data.head? = some ' ' ∨ s = ")" ∨ s = "") := by
  unfold define_block at h
  split at h
  · cases h
  · rename_i hne
    refine ⟨fun e => hne (by simp [e]), ?_⟩
    simp only [List.append_assoc, List.mem_append, List.mem_cons, List.mem_map,
      List.not_mem_nil, or_false] at h
    rcases h with h | ⟨a, _, rfl⟩ | h | h
    · exact Or.inl h
    · exact Or.inr (Or.inl (head_append _ _ _ rfl))
    · exact Or.inr (Or.inr (Or.inl h))
    · exact Or.inr (Or.inr (Or.inr h))

theorem mem_lib_block {s : String} {cfg : PlatformConfig} (h : s ∈ lib_block cfg) :
    cfg.libs ≠ [] ∧
      (s = "target_link_libraries(godot PRIVATE" ∨ s.data.head? = some ' ' ∨ s = ")") := by
  unfold lib_block at h
  split at h
  · cases h
  · rename_i hne
    refine ⟨fun e => hne (by simp [e]), ?_⟩
    simp only [List.append_assoc, List.mem_append, List.mem_cons, List.mem_map,
      List.not_mem_nil, or_false] at h
    rcases h with h | ⟨a, _, rfl⟩ | h
    · exact Or.inl h
    · exact Or.inr (Or.inl (head_append _ _ _ rfl))
    · exact Or.inr (Or.inr h)

theorem mem_platform_header {s : String} {p : String}
    (h : s ∈ ["# Platform configuration for " ++ p, "", "# Compiler flags"]) :
    s.data.head? = some '#' ∨ s = "" := by
  simp only [List.mem_cons, List.not_mem_nil, or_false] at h
  rcases h with rfl | rfl | rfl
  · exact Or.inl (head_append _ _ _ rfl)
  · exact Or.inr rfl
  · exact Or.inl rfl

/-- The compile-options marker occurs in the platform output iff the flag list
is non-empty. -/
theorem platform_marker_options (p : String) (cfg : PlatformConfig) :
    "add_compile_options(" ∈ platform_cmake_lines p cfg ↔ cfg.flags ≠ [] := by
  constructor
  · intro h
    unfold platform_cmake_lines at h
    simp only [List.append_assoc, List.mem_append] at h
    rcases h with h | h | h | h
    · rcases mem_platform_header h with hh | hh
      · exact absurd hh (by decide)
      · exact absurd hh (by decide)
    · exact (mem_flag_block h).1
    · rcases (mem_define_block h).2 with hh | hh | hh | hh <;> exact absurd hh (by decide)
    · rcases (mem_lib_block h).2 with hh | hh | hh <;> exact absurd hh (by decide)
  · intro h
    unfold platform_cmake_lines flag_block
    rw [if_neg (by simpa using h)]
    simp

/-- The compile-definitions marker occurs iff the define list is non-empty. -/
theorem platform_marker_definitions (p : String) (cfg : PlatformConfig) :
    "add_compile_definitions(" ∈ platform_cmake_lines p cfg ↔ cfg.defines ≠ [] := by
  constructor
  · intro h
    unfold platform_cmake_lines at h
    simp only [List.append_assoc, List.mem_append] at h
    rcases h with h | h | h | h
    · rcases mem_platform_header h with hh | hh
      · exact absurd hh (by decide)
      · exact absurd hh (by decide)
    · rcases (mem_flag_block h).2 with hh | hh | hh | hh <;> exact absurd hh (by decide)
    · exact (mem_define_block h).1
    · rcases (mem_lib_block h).2 with hh | hh | hh <;> exact absurd hh (by decide)
  · intro h
    unfold platform_cmake_lines define_block
    rw [if_neg (by simpa using h)]
    simp

/-- The link-libraries marker occurs iff the library list is non-empty. -/
theorem platform_marker_libraries (p : String) (cfg : PlatformConfig) :
    "target_link_libraries(godot PRIVATE" ∈ platform_cmake_lines p cfg ↔
      cfg.libs ≠ [] := by
  constructor
  · intro h
    unfold platform_cmake_lines at h
    simp only [List.append_assoc, List.mem_append] at h
    rcases h with h | h | h | h
    · rcases mem_platform_header h with hh | hh
      · exact absurd hh (by decide)
      · exact absurd hh (by decide)
    · rcases (mem_flag_block h).2 with hh | hh | hh | hh <;> exact absurd hh (by decide)
    · rcases (mem_define_block h).2 with hh | hh | hh | hh <;> exact absurd hh (by decide)
    · exact (mem_lib_block h).1
  · intro h
    unfold platform_cmake_lines lib_block
    rw [if_neg (by simpa using h)]
    simp

/-! ## Claim C7: platform emitter block presence -/

/-- C7: each block of the platform emitter's output is present exactly when
its list is non-empty, and an all-empty `PlatformConfig` renders header-only
output. -/
theorem c7_platform_blocks_iff (p : String) (cfg : PlatformConfig) :
    (("add_compile_options(" ∈ platform_cmake_lines p cfg) ↔ cfg.flags ≠ []) ∧
    (("add_compile_definitions(" ∈ platform_cmake_lines p cfg) ↔ cfg.defines ≠ []) ∧
    (("target_link_libraries(godot PRIVATE" ∈ platform_cmake_lines p cfg) ↔
      cfg.libs ≠ []) ∧
    (cfg.flags = [] → cfg.defines = [] → cfg.libs = [] →
      platform_cmake_lines p cfg =
        ["# Platform configuration for " ++ p, "", "# Compiler flags"]) := by
  refine ⟨platform_marker_options p cfg, platform_marker_definitions p cfg,
    platform_marker_libraries p cfg, fun hf hd hl => ?_⟩
  unfold platform_cmake_lines flag_block define_block lib_block
  rw [hf, hd, hl]
  simp

/-- Witness for C7 at concrete configurations: a config with one flag emits
the compile-options marker, and the all-empty config is header-only. -/
theorem c7_platform_blocks_iff_witness :
    "add_compile_options(" ∈
      platform_cmake_lines "linuxbsd" ⟨"linuxbsd", [], [], [], ["-O2"]⟩ ∧
    "add_compile_definitions(" ∉
      platform_cmake_lines "linuxbsd" ⟨"linuxbsd", [], ["GL"], [], ["-O2"]⟩ ∧
    platform_cmake_lines "web" ⟨"web", [], [], [], []⟩ =
      ["# Platform configuration for web", "", "# Compiler flags"] :=
  ⟨(c7_platform_blocks_iff "linuxbsd" ⟨"linuxbsd", [], [], [], ["-O2"]⟩).1.mpr
      (by decide),
   fun h =>
     ((c7_platform_blocks_iff "linuxbsd" ⟨"linuxbsd", [], ["GL"], [], ["-O2"]⟩).2.1.mp h)
       rfl,
   (c7_platform_blocks_iff "web" ⟨"web", [], [], [], []⟩).2.2.2 rfl rfl rfl⟩

/-! ## Association-list lookups over filterMap collections -/

theorem lookup_filterMap_none {β : Type} (f : String → Option (String × β))
    (hf : ∀ x r, f x = some r → r.1 = x) (l : List String) (name : String)
    (hname : f name = none) : ((l.filterMap f).lookup name) = none := by
  induction l with
  | nil => rfl
  | cons x xs ih =>
    cases hfx : f x with
    | none => simpa [List.filterMap_cons, hfx] using ih
    | some r =>
      have hx := hf x r hfx
      have hne : name ≠ x := by
        rintro rfl
        rw [hfx] at hname
        cases hname
      obtain ⟨k, v⟩ := r
      have hkx : k = x := hx
      rw [List.filterMap_cons, hfx, List.lookup]
      rw [show (name == k) = false from
        beq_eq_false_iff_ne.mpr (fun e => hne (e.trans hkx))]
      exact ih

theorem lookup_filterMap_self {β : Type} (f : String → Option (String × β))
    (hf : ∀ x r, f x = some r → r.1 = x) (l : List String) (name : String)
    (v : β) (hmem : name ∈ l) (hname : f name = some (name, v)) :
    (l.filterMap f).lookup name = some v := by
  induction l with
  | nil => cases hmem
  | cons x xs ih =>
    rcases List.mem_cons.mp hmem with rfl | hmem'
    · rw [List.filterMap_cons, hname, List.lookup]
      rw [show (name == name) = true from beq_self_eq_true name]
    · cases hfx : f x with
      | none =>
        rw [List.filterMap_cons, hfx]
        exact ih hmem'
      | some r =>
        by_cases hx : x = name
        · subst hx
          rw [hfx] at hname
          cases hname
          rw [List.filterMap_cons, hfx, List.lookup]
          rw [show (x == x) = true from beq_self_eq_true x]
        · have hk := hf x r hfx
          obtain ⟨k, w⟩ := r
          have hkx : k = x := hk
          rw [List.filterMap_cons, hfx, List.lookup]
          rw [show (name == k) = false from
            beq_eq_false_iff_ne.mpr (fun e => hx (e.trans hkx).symm)]
          exact ih hmem'

/-! ## Claim C6: asymmetric handling of empty directories -/

/-- C6: a child of the platforms root with no `detect.py` never appears in the
platform mapping; a child directory of the modules root always appears in the
module mapping, and it maps to the all-empty config when `SCsub` is absent. -/
theorem c6_asymmetric_empty_dirs (fs : FS) (root name : String) :
    (findFile fs.files (pjoin (pjoin (platformRootDir root) name) "detect.py") = none →
      (_parse_platform_configs fs root).lookup name = none) ∧
    (name ∈ listDir fs (modulesRootDir root) →
      pjoin (modulesRootDir root) name ∈ fs.dirs →
      (_parse_modules fs root).lookup name = some (_parse_module fs root name)) ∧
    (findFile fs.files (pjoin (pjoin (modulesRootDir root) name) "SCsub") = none →
      _parse_module fs root name = ⟨name, [], [], [], []⟩) := by
  refine ⟨fun hdet => ?_, fun hmem hdir => ?_, fun hscsub => ?_⟩
  · unfold _parse_platform_configs
    refine lookup_filterMap_none _ (fun x r hr => ?_) _ _ ?_
    · split at hr
      · split at hr
        · cases hr; rfl
        · cases hr
      · cases hr
    · split
      · rw [hdet]
      · rfl
  · unfold _parse_modules
    refine lookup_filterMap_self _ (fun x r hr => ?_) _ _ _ hmem ?_
    · split at hr
      · cases hr; rfl
      · cases hr
    · rw [if_pos hdir]
  · unfold _parse_module
    rw [hscsub]

/-- A filesystem with a platform child lacking `detect.py` and a module child
lacking `SCsub`. -/
def c6fs : FS :=
  ⟨["r", "r/platform", "r/platform/noplat", "r/modules", "r/modules/m1"],
   [("r/SConstruct", "")]⟩

/-- Witness for C6 at a concrete filesystem. -/
theorem c6_asymmetric_empty_dirs_witness :
    (_parse_platform_configs c6fs "r").lookup "noplat" = none ∧
    (_parse_modules c6fs "r").lookup "m1" = some ⟨"m1", [], [], [], []⟩ := by
  constructor
  · exact (c6_asymmetric_empty_dirs c6fs "r" "noplat").1 (by decide)
  · have h2 := (c6_asymmetric_empty_dirs c6fs "r" "m1").2.1 (by decide) (by decide)
    have h3 := (c6_asymmetric_empty_dirs c6fs "r" "m1").2.2 (by decide)
    rw [h2, h3]

/-! ## Claim C10: collection never populates defines or include paths -/

/-- C10: every collected platform config and module config has empty `defines`
and empty `includes` (collection only populates platform flags/libs and module
sources/deps), so the platform emitter never renders a compile-definitions
block for a collected platform. -/
theorem c10_collected_configs_no_defines (fs : FS) (root : String) :
    (∀ e ∈ _parse_platform_configs fs root,
        e.2.defines = [] ∧ e.2.includes = [] ∧
        "add_compile_definitions(" ∉ platform_cmake_lines e.1 e.2) ∧
    (∀ e ∈ _parse_modules fs root, e.2.defines = [] ∧ e.2.includes = []) := by
  constructor
  · intro e he
    unfold _parse_platform_configs at he
    rcases List.mem_filterMap.mp he with ⟨a, _, ha⟩
    split at ha
    · split at ha
      · cases ha
        rename_i content heq
        refine ⟨rfl, rfl, fun hmem => ?_⟩
        have := (platform_marker_definitions a (_parse_platform_detect a content)).mp hmem
        exact this rfl
      · cases ha
    · cases ha
  · intro e he
    unfold _parse_modules at he
    rcases List.mem_filterMap.mp he with ⟨a, _, ha⟩
    split at ha
    · cases ha
      unfold _parse_module
      cases findFile fs.files (pjoin (pjoin (modulesRootDir root) a) "SCsub") with
      | none => exact ⟨rfl, rfl⟩
      | some content => exact ⟨rfl, rfl⟩
    · cases ha

/-- Witness for C10 at a concrete filesystem with one platform and module. -/
def c10fs : FS :=
  ⟨["r", "r/platform", "r/platform/p1", "r/modules", "r/modules/m1"],
   [("r/platform/p1/detect.py", "def get_flags():\n    return [\"-O2\"]\n"),
    ("r/modules/m1/SCsub", "env.add_source_files(s, [\"a.cpp\"])\n")]⟩

/-- Witness applying C10 to the concrete collected configs of `c10fs`. -/
theorem c10_collected_configs_no_defines_witness :
    ∃ e ∈ _parse_platform_configs c10fs "r",
      e.2.defines = [] ∧ e.2.includes = [] ∧
      "add_compile_definitions(" ∉ platform_cmake_lines e.1 e.2 := by
  refine ⟨("p1", _parse_platform_detect "p1"
    "def get_flags():\n    return [\"-O2\"]\n"), by decide, ?_⟩
  exact (c10_collected_configs_no_defines c10fs "r").1 _ (by decide)

/-! ## Path algebra -/

theorem rev_pjoin (a b : String) :
    (pjoin a b).data.reverse = b.data.reverse ++ '/' :: a.data.reverse := by
  show ((a ++ "/" ++ b)).data.reverse = _
  rw [String.data_append, String.data_append, List.reverse_append,
    List.reverse_append]
  show b.data.reverse ++ (("/" : String).data.reverse ++ a.data.reverse) = _
  rfl

theorem pjoin_inj_right {a b c : String} (h : pjoin a b = pjoin a c) : b = c := by
  unfold pjoin at h
  have hd := congrArg String.data h
  rw [String.data_append, String.data_append, String.data_append,
    String.data_append] at hd
  exact String.ext (List.append_cancel_left hd)

theorem dropWhile_append_all {p : Char → Bool} {xs : List Char} (ys : List Char)
    (h : ∀ x ∈ xs, p x = true) : (xs ++ ys).dropWhile p = ys.dropWhile p := by
  induction xs with
  | nil => rfl
  | cons x xs ih =>
    rw [List.cons_append, List.dropWhile_cons, if_pos (h x (List.mem_cons_self ..))]
    exact ih (fun y hy => h y (List.mem_cons_of_mem _ hy))

theorem dirname_pjoin (a b : String) (h : ('/' : Char) ∉ b.data) :
    dirname (pjoin a b) = a := by
  unfold dirname
  show String.mk ((((pjoin a b).data.reverse).dropWhile (fun c => c != '/')).drop 1).reverse = a
  rw [rev_pjoin]
  rw [dropWhile_append_all _ (fun x hx => by
    have hxb : x ∈ b.data := List.mem_reverse.mp hx
    have : x ≠ '/' := fun e => h (e ▸ hxb)
    simpa using this)]
  rw [List.dropWhile_cons]
  simp

theorem pjoin_ne_empty (a b : String) : pjoin a b ≠ "" := by
  intro h
  have hd := congrArg String.data h
  unfold pjoin at hd
  rw [String.data_append] at hd
  have : '/' ∈ (((a ++ "/")).data ++ b.data) := by
    rw [String.data_append]
    refine List.mem_append.mpr (Or.inl (List.mem_append.mpr (Or.inr ?_)))
    show '/' ∈ ("/" : String).data
    decide
  rw [hd] at this
  cases this

theorem childName_shape {d x : String} {nm : List Char}
    (h : childNameL? d.data x.data = some nm) :
    x = pjoin d (String.mk nm) ∧ nm ≠ [] ∧ ('/' : Char) ∉ nm := by
  unfold childNameL? at h
  cases hp : dropPfx (d.data ++ ['/']) x.data with
  | none => rw [hp] at h; cases h
  | some rest =>
    rw [hp, Option.some_bind] at h
    have hcond : (!rest.isEmpty && !(rest.contains '/')) = true := by
      cases hc : (!rest.isEmpty && !(rest.contains '/')) with
      | false => rw [hc] at h; simp at h
      | true => rfl
    have hrn : rest = nm := by
      rw [hcond, if_pos rfl] at h
      exact Option.some.inj h
    subst hrn
    have hcond' := Bool.and_eq_true .. |>.mp hcond
    have hne : rest ≠ [] := by simpa [List.isEmpty_iff] using hcond'.1
    have hsl : ('/' : Char) ∉ rest := by
      intro hmem
      have h1 : rest.contains '/' = true := List.elem_iff.mpr hmem
      have h2 := hcond'.2
      rw [h1] at h2
      cases h2
    refine ⟨?_, hne, hsl⟩
    have hx : x.data = (d.data ++ ['/']) ++ rest := by
      unfold dropPfx at hp
      split at hp
      · rename_i hpre
        obtain ⟨t, ht⟩ := List.isPrefixOf_iff_prefix.mp hpre
        have hdn := Option.some.inj hp
        rw [← ht, List.drop_left] at hdn
        rw [← ht, hdn]
      · cases hp
    apply String.ext
    unfold pjoin
    rw [String.data_append, String.data_append, hx]

theorem childName_dirname {d x : String} {nm : List Char}
    (h : childNameL? d.data x.data = some nm) : dirname x = d := by
  obtain ⟨hx, _, hsl⟩ := childName_shape h
  rw [hx]
  exact dirname_pjoin d (String.mk nm) hsl

/-- A missing directory has no children in a well-formed filesystem. -/
theorem listDir_empty_of_missing (fs : FS) (d : String) (hwf : fs.wf)
    (hd : d ∉ fs.dirs) (hne : d ≠ "") : listDir fs d = [] := by
  unfold listDir
  have h1 : fs.dirs.filterMap
      (fun x => (childNameL? d.toList x.toList).map String.mk) = [] := by
    rw [List.filterMap_eq_nil_iff]
    intro x hx
    cases hc : childNameL? d.toList x.toList with
    | none => rfl
    | some nm =>
      exfalso
      have hdn : dirname x = d := childName_dirname hc
      rcases hwf.2 x hx with h0 | h0
      · exact hne (hdn ▸ h0)
      · exact hd (hdn ▸ h0)
  have h2 : (fs.files.map Prod.fst).filterMap
      (fun p => (childNameL? d.toList p.toList).map String.mk) = [] := by
    rw [List.filterMap_eq_nil_iff]
    intro p hp
    cases hc : childNameL? d.toList p.toList with
    | none => rfl
    | some nm =>
      exfalso
      have hdn : dirname p = d := childName_dirname hc
      rcases List.mem_map.mp hp with ⟨pc, hpc, rfl⟩
      exact hd (hdn ▸ hwf.1 pc hpc)
  rw [h1, h2]
  rfl

/-! ## Run-state plumbing -/

theorem writeStep_not_ok {r : RunResult} {p c : String} (h : r.ok = false) :
    writeStep r p c = r := by
  unfold writeStep
  rw [h]
  rfl

theorem warn_not_ok {r : RunResult} {m : String} (h : r.ok = false) : warn r m = r := by
  unfold warn
  rw [h]
  rfl

theorem emitCoreLib_not_ok {root : String} {r : RunResult} {lib : String}
    (h : r.ok = false) : emitCoreLib root r lib = r := by
  unfold emitCoreLib
  split
  · split
    · rw [warn_not_ok h, writeStep_not_ok h]
    · rw [writeStep_not_ok h]
  · rfl

theorem emitModuleFile_not_ok {root : String} {r : RunResult}
    {mc : String × ModuleConfig} (h : r.ok = false) : emitModuleFile root r mc = r := by
  unfold emitModuleFile
  split
  · rw [warn_not_ok h, writeStep_not_ok h]
  · rw [writeStep_not_ok h]

theorem writeStep_dirs (r : RunResult) (p c : String) :
    (writeStep r p c).fs.dirs = r.fs.dirs := by
  unfold writeStep
  split
  · cases hw : writeFile r.fs p c with
    | none => rfl
    | some fs' =>
      unfold writeFile at hw
      split at hw
      · cases hw
      · split at hw
        · cases hw; rfl
        · cases hw
  · rfl

theorem warn_dirs (r : RunResult) (m : String) : (warn r m).fs.dirs = r.fs.dirs := by
  unfold warn
  split <;> rfl

theorem emitCoreLib_dirs (root : String) (r : RunResult) (lib : String) :
    (emitCoreLib root r lib).fs.dirs = r.fs.dirs := by
  unfold emitCoreLib
  split
  · split
    · rw [writeStep_dirs, warn_dirs]
    · rw [writeStep_dirs]
  · rfl

theorem core_gen_dirs (root : String) (r : RunResult) :
    (_generate_core_cmake_files root r).fs.dirs = r.fs.dirs := by
  unfold _generate_core_cmake_files core_libs
  simp only [List.foldl_cons, List.foldl_nil]
  rw [emitCoreLib_dirs, emitCoreLib_dirs, emitCoreLib_dirs, emitCoreLib_dirs,
    emitCoreLib_dirs, emitCoreLib_dirs]

theorem plat_fold_dirs (root : String) (configs : List (String × PlatformConfig))
    (r : RunResult) :
    (configs.foldl (fun r pc =>
      writeStep r (pjoin (pjoin root "cmake") ("platform_" ++ pc.1 ++ ".cmake"))
        (joinLines (platform_cmake_lines pc.1 pc.2))) r).fs.dirs = r.fs.dirs := by
  induction configs generalizing r with
  | nil => rfl
  | cons pc rest ih => rw [List.foldl_cons, ih, writeStep_dirs]

theorem mkdirStep_dirs (r : RunResult) (p : String) :
    (mkdirStep r p).fs.dirs = r.fs.dirs ∨
      (mkdirStep r p).fs.dirs = r.fs.dirs ++ [p] := by
  unfold mkdirStep
  split
  · split
    · exact Or.inl rfl
    · split
      · exact Or.inl rfl
      · split
        · exact Or.inr rfl
        · exact Or.inl rfl
  · exact Or.inl rfl

theorem plat_gen_dirs (root : String) (configs : List (String × PlatformConfig))
    (r : RunResult) :
    (_generate_platform_cmake_files root configs r).fs.dirs = r.fs.dirs ∨
      (_generate_platform_cmake_files root configs r).fs.dirs =
        r.fs.dirs ++ [pjoin root "cmake"] := by
  unfold _generate_platform_cmake_files
  rw [plat_fold_dirs]
  exact mkdirStep_dirs r _

theorem writeStep_ok_of (r : RunResult) (p c : String) :
    (writeStep r p c).ok = true → r.ok = true := by
  intro h
  cases hr : r.ok with
  | true => rfl
  | false => rw [writeStep_not_ok hr] at h; rw [← h, hr]

theorem root_gen_dirs (root : String) (options : List (String × PyOption))
    (r : RunResult) : (_generate_root_cmakelists root options r).fs.dirs = r.fs.dirs :=
  writeStep_dirs ..

/-- When the parent directory is missing, writing fails regardless of whether
the path denotes an existing directory. -/
theorem writeFile_none_of_parent {fs : FS} {p c : String}
    (h : dirname p ∉ fs.dirs) : writeFile fs p c = none := by
  unfold writeFile
  by_cases hp : p ∈ fs.dirs
  · rw [if_pos hp]
  · rw [if_neg hp, if_neg h]

/-! ## Claim C3: failure semantics -/

/-- C3 (amended): a missing root `SConstruct` aborts the run before anything
is written, with exit status 1; with a well-formed filesystem, a missing
platforms root yields an empty platform mapping (and the run can continue);
but a missing modules root, while also yielding an empty module mapping,
always makes the run die: the module emitter unconditionally writes the
umbrella file into the missing modules directory. -/
theorem c3_failure_semantics :
    (∀ root fs, findFile fs.files (pjoin root "SConstruct") = none →
        convert root fs = ⟨fs, [], [], false⟩ ∧ main_exit root fs = 1) ∧
    (∀ root fs, FS.wf fs → platformRootDir root ∉ fs.dirs →
        _parse_platform_configs fs root = []) ∧
    (∀ root fs, FS.wf fs → modulesRootDir root ∉ fs.dirs →
        _parse_modules fs root = [] ∧ (convert root fs).ok = false) := by
  have hconv : ∀ root fs, findFile fs.files (pjoin root "SConstruct") = none →
      convert root fs = ⟨fs, [], [], false⟩ := by
    intro root fs h
    unfold convert
    rw [h]
  refine ⟨fun root fs h => ⟨hconv root fs h, ?_⟩, fun root fs hwf hplat => ?_,
    fun root fs hwf hmod => ?_⟩
  · unfold main_exit
    split
    · rw [hconv root fs h]
      rfl
    · rfl
  · unfold _parse_platform_configs
    rw [listDir_empty_of_missing fs _ hwf hplat (pjoin_ne_empty _ _)]
    rfl
  · have hm : _parse_modules fs root = [] := by
      unfold _parse_modules
      rw [listDir_empty_of_missing fs _ hwf hmod (pjoin_ne_empty _ _)]
      rfl
    refine ⟨hm, ?_⟩
    unfold convert
    cases hsc : findFile fs.files (pjoin root "SConstruct") with
    | none => rfl
    | some content =>
      rw [hm]
      unfold _generate_module_cmake_files
      simp only [List.map_nil, List.foldl_nil, List.append_nil]
      set r3 := _generate_core_cmake_files root
        (_generate_platform_cmake_files root (_parse_platform_configs fs root)
          (_generate_root_cmakelists root (_parse_sconstruct_content content)
            ⟨fs, [], [], true⟩)) with hr3
      have hdirs : r3.fs.dirs = fs.dirs ∨
          r3.fs.dirs = fs.dirs ++ [pjoin root "cmake"] := by
        rw [hr3, core_gen_dirs]
        rcases plat_gen_dirs root (_parse_platform_configs fs root)
          (_generate_root_cmakelists root (_parse_sconstruct_content content)
            ⟨fs, [], [], true⟩) with h | h
        · rw [h, root_gen_dirs]; exact Or.inl rfl
        · rw [h, root_gen_dirs]; exact Or.inr rfl
      have hparent : dirname (pjoin (modulesRootDir root) "CMakeLists.txt") ∉
          r3.fs.dirs := by
        rw [dirname_pjoin _ _ (by decide)]
        rcases hdirs with h | h
        · rw [h]; exact hmod
        · rw [h]
          intro hmem
          rcases List.mem_append.mp hmem with hmem | hmem
          · exact hmod hmem
          · rcases List.mem_cons.mp hmem with he | he
            · exact absurd (pjoin_inj_right he) (by decide)
            · cases he
      cases hok : r3.ok with
      | false => rw [writeStep_not_ok hok]; exact hok
      | true =>
        unfold writeStep
        rw [hok, if_pos rfl, writeFile_none_of_parent hparent]

/-- A well-formed root with `SConstruct` but neither a platforms nor a modules
directory. -/
def c3fs : FS := ⟨["r"], [("r/SConstruct", "opts.Add(\"a\", \"b\", \"c\", \"d\")")]⟩

/-- A root directory with no `SConstruct` at all. -/
def c3fsNoSc : FS := ⟨["r", "r/modules"], []⟩

/-- Witness for C3's amended theorem at concrete filesystems. -/
theorem c3_failure_semantics_witness :
    (convert "r" c3fsNoSc = ⟨c3fsNoSc, [], [], false⟩ ∧ main_exit "r" c3fsNoSc = 1) ∧
    _parse_platform_configs c3fs "r" = [] ∧
    (_parse_modules c3fs "r" = [] ∧ (convert "r" c3fs).ok = false) :=
  ⟨c3_failure_semantics.1 "r" c3fsNoSc (by decide),
   c3_failure_semantics.2.1 "r" c3fs (by decide) (by decide),
   c3_failure_semantics.2.2 "r" c3fs (by decide) (by decide)⟩

/-- C3 counterexample: a well-formed tree whose modules root is missing.  The
claim says the run continues without error; in fact the module emitter dies
writing the umbrella file, and the process exit status is 1. -/
def c3cfs : FS := ⟨["r", "r/platform"], [("r/SConstruct", "")]⟩

/-- The run with a missing modules root ends dead, with exit status 1. -/
theorem c3_counterexample_modules_root_missing :
    (convert "r" c3cfs).ok = false ∧ main_exit "r" c3cfs = 1 := by
  refine ⟨by decide, by decide⟩

/-! ## Claim C5: the core-library emitter -/

/-- A root whose `core` directory exists but holds no sources. -/
def c5fsEmpty : FS := ⟨["r", "r/core", "r/modules"], [("r/SConstruct", "")]⟩

/-- A root whose `core` directory holds one source file. -/
def c5fsSrc : FS :=
  ⟨["r", "r/core", "r/modules"], [("r/SConstruct", ""), ("r/core/a.cpp", "")]⟩

/-- C5: with zero discovered sources the run warns, writes a target-less
`core` library file, and continues (first three conjuncts); but the emitted
library file never contains the include-directory declarations nor the
Unix compile definitions, sources or not (the strings of lines 326-341 are
orphaned, see the file header). -/
theorem c5_core_emitter_missing_includes :
    (convert "r" c5fsEmpty).ok = true ∧
    "Warning: No source files found for library core in r/core" ∈
      (convert "r" c5fsEmpty).msgs ∧
    ("r/core/CMakeLists.txt", "# core library\n\nset(LIB_SOURCES") ∈
      (convert "r" c5fsEmpty).writes ∧
    (∀ w ∈ (convert "r" c5fsSrc).writes, w.1 = "r/core/CMakeLists.txt" →
      containsSub "target_include_directories".toList w.2.toList = false ∧
      containsSub "UNIX_ENABLED".toList w.2.toList = false) ∧
    ("r/core/CMakeLists.txt",
      "# core library\n\nset(LIB_SOURCES\n    a.cpp\n)\n\nadd_library(core STATIC ${LIB_SOURCES})")
      ∈ (convert "r" c5fsSrc).writes := by
  refine ⟨by decide, by decide, by decide, by decide, by decide⟩

/-! ## Generated-path classification

Every file the pipeline writes is a `CMakeLists.txt` or a `platform_*.cmake`;
`genName` recognizes such paths by their reversed suffix.  No source-relevant
path (`SConstruct`, `detect.py`, `SCsub`, a source extension, the `cmake`
directory, a top-level library directory) is of this shape. -/

/-- Whether a path ends in `/CMakeLists.txt` or in `.cmake`. -/
def genName (w : String) : Bool :=
  (String.data "/CMakeLists.txt").reverse.isPrefixOf w.data.reverse ||
  (String.data ".cmake").reverse.isPrefixOf w.data.reverse

theorem isPrefixOf_self_append (l t : List Char) : l.isPrefixOf (l ++ t) = true :=
  List.isPrefixOf_iff_prefix.mpr ⟨t, rfl⟩

theorem genName_cmakelists (a : String) :
    genName (pjoin a "CMakeLists.txt") = true := by
  unfold genName
  rw [rev_pjoin]
  have h : ("CMakeLists.txt" : String).data.reverse ++ '/' :: a.data.reverse =
      (String.data "/CMakeLists.txt").reverse ++ a.data.reverse := rfl
  rw [h, isPrefixOf_self_append, Bool.true_or]

theorem genName_platfile (a x : String) :
    genName (pjoin a ("platform_" ++ x ++ ".cmake")) = true := by
  unfold genName
  rw [rev_pjoin]
  have h : ("platform_" ++ x ++ ".cmake").data.reverse ++ '/' :: a.data.reverse =
      (String.data ".cmake").reverse ++
        (x.data.reverse ++ ("platform_" : String).data.reverse ++
          '/' :: a.data.reverse) := by
    rw [String.data_append, String.data_append, List.reverse_append,
      List.reverse_append]
    simp [List.append_assoc]
  rw [h, isPrefixOf_self_append, Bool.or_true]

theorem not_genName_sconstruct (a : String) :
    genName (pjoin a "SConstruct") = false := by
  unfold genName
  rw [rev_pjoin]
  rfl

theorem not_genName_detect (a : String) :
    genName (pjoin a "detect.py") = false := by
  unfold genName
  rw [rev_pjoin]
  rfl

theorem not_genName_scsub (a : String) :
    genName (pjoin a "SCsub") = false := by
  unfold genName
  rw [rev_pjoin]
  rfl

theorem not_genName_cmakedir (a : String) :
    genName (pjoin a "cmake") = false := by
  unfold genName
  rw [rev_pjoin]
  rfl

theorem not_genName_corelib {a lib : String} (h : lib ∈ core_libs) :
    genName (pjoin a lib) = false := by
  have h' : lib = "core" ∨ lib = "drivers" ∨ lib = "main" ∨ lib = "platform" ∨
      lib = "scene" ∨ lib = "servers" := by simpa [core_libs] using h
  rcases h' with rfl | rfl | rfl | rfl | rfl | rfl <;>
    (unfold genName; rw [rev_pjoin]; rfl)

theorem ne_of_genName {a b : String} (ha : genName a = true) (hb : genName b = false) :
    a ≠ b := by
  intro e
  rw [e, hb] at ha
  cases ha

theorem genName_extMatch_false {w : String} (hg : genName w = true) {ext : String}
    (he : ext ∈ srcExts) : extMatch ext w = false := by
  have he' : ext = ".cpp" ∨ ext = ".c" ∨ ext = ".h" ∨ ext = ".hpp" ∨ ext = ".inc" := by
    simpa [srcExts] using he
  rcases Bool.or_eq_true .. |>.mp hg with h | h <;>
    obtain ⟨t, ht⟩ := List.isPrefixOf_iff_prefix.mp h <;>
    (rcases he' with rfl | rfl | rfl | rfl | rfl <;>
      (show (_ : List Char).isPrefixOf w.toList.reverse = false
       rw [show w.toList.reverse = _ ++ t from ht.symm]
       rfl))

/-! ## The generated-extension invariant

`GenExt root fs σ` says that `σ` is `fs` extended only by generated artifacts:
the directories are unchanged except possibly a trailing `root/cmake`, the file
listing is the old one (contents of generated paths may differ) plus fresh
generated paths appended at the end, and every non-generated path reads the
same. -/

structure GenExt (root : String) (fs σ : FS) : Prop where
  dirs_eq : σ.dirs = fs.dirs ∨ σ.dirs = fs.dirs ++ [pjoin root "cmake"]
  keys : ∃ extra, σ.files.map Prod.fst = fs.files.map Prod.fst ++ extra ∧
      ∀ p ∈ extra, genName p = true ∧ p ∉ fs.dirs
  reads : ∀ q, genName q = false → findFile σ.files q = findFile fs.files q

theorem GenExt.refl (root : String) (fs : FS) : GenExt root fs fs :=
  ⟨Or.inl rfl, ⟨[], by simp, by simp⟩, fun _ _ => rfl⟩

theorem GenExt.dirs_sub {root : String} {fs σ : FS} (h : GenExt root fs σ) :
    fs.dirs ⊆ σ.dirs := by
  rcases h.dirs_eq with h0 | h0
  · rw [h0]
    exact fun a ha => ha
  · rw [h0]; exact fun a ha => List.mem_append.mpr (Or.inl ha)

theorem findFile_setFile_ne {q p c : String} :
    ∀ {files : List (String × String)}, q ≠ p →
      findFile (setFile files p c) q = findFile files q
  | [], h => by
    unfold setFile findFile
    rw [if_neg (fun e => h e.symm)]
    rfl
  | (k, v) :: rest, h => by
    unfold setFile
    split
    · rename_i hk
      unfold findFile
      rw [hk, if_neg (fun e => h e.symm), if_neg (fun e => h e.symm)]
    · unfold findFile
      split
      · rfl
      · exact findFile_setFile_ne h

theorem setFile_keys_mem {p c : String} :
    ∀ {files : List (String × String)}, p ∈ files.map Prod.fst →
      (setFile files p c).map Prod.fst = files.map Prod.fst
  | [], h => by cases h
  | (k, v) :: rest, h => by
    unfold setFile
    split
    · rename_i hk
      subst hk
      rfl
    · rename_i hk
      have hmem : p ∈ rest.map Prod.fst := by
        rcases List.mem_cons.mp h with h0 | h0
        · exact absurd h0.symm hk
        · exact h0
      rw [List.map_cons, List.map_cons, setFile_keys_mem hmem]

theorem setFile_keys_not_mem {p c : String} :
    ∀ {files : List (String × String)}, p ∉ files.map Prod.fst →
      (setFile files p c).map Prod.fst = files.map Prod.fst ++ [p]
  | [], _ => rfl
  | (k, v) :: rest, h => by
    unfold setFile
    split
    · rename_i hk
      exfalso
      apply h
      rw [List.map_cons, hk]
      exact List.mem_cons_self ..
    · rw [List.map_cons, List.map_cons, setFile_keys_not_mem
        (fun hm => h (List.mem_cons_of_mem _ hm)), List.cons_append]

theorem writeFile_some {fs : FS} {p c : String} {fs' : FS}
    (h : writeFile fs p c = some fs') :
    fs' = ⟨fs.dirs, setFile fs.files p c⟩ ∧ p ∉ fs.dirs ∧ dirname p ∈ fs.dirs := by
  unfold writeFile at h
  split at h
  · cases h
  · split at h
    · cases h
      exact ⟨rfl, by assumption, by assumption⟩
    · cases h

theorem GenExt.write {root : String} {fs σ σ' : FS} {p c : String}
    (h : GenExt root fs σ) (hg : genName p = true)
    (hw : writeFile σ p c = some σ') : GenExt root fs σ' := by
  obtain ⟨hfs', hnd, _⟩ := writeFile_some hw
  subst hfs'
  obtain ⟨extra, he, hp⟩ := h.keys
  constructor
  · exact h.dirs_eq
  · by_cases hmem : p ∈ σ.files.map Prod.fst
    · exact ⟨extra, by rw [show (⟨σ.dirs, setFile σ.files p c⟩ : FS).files =
        setFile σ.files p c from rfl, setFile_keys_mem hmem, he], hp⟩
    · refine ⟨extra ++ [p], ?_, ?_⟩
      · rw [show (⟨σ.dirs, setFile σ.files p c⟩ : FS).files =
          setFile σ.files p c from rfl, setFile_keys_not_mem hmem, he,
          List.append_assoc]
      · intro q hq
        rcases List.mem_append.mp hq with hq | hq
        · exact hp q hq
        · rcases List.mem_cons.mp hq with rfl | hq
          · exact ⟨hg, fun hqd => hnd (h.dirs_sub hqd)⟩
          · cases hq
  · intro q hq
    show findFile (setFile σ.files p c) q = _
    rw [findFile_setFile_ne (fun e => by rw [e, hg] at hq; cases hq)]
    exact h.reads q hq

/-! ## Observation equalities under the invariant -/

theorem data_pjoin (a b : String) : (pjoin a b).data = (a.data ++ ['/']) ++ b.data := by
  show ((a ++ "/" ++ b)).data = _
  rw [String.data_append, String.data_append]

theorem prefix_cancel (a b c : List Char) :
    (a ++ b).isPrefixOf (a ++ c) = b.isPrefixOf c := by
  induction a with
  | nil => rfl
  | cons x as ih =>
    rw [List.cons_append, List.cons_append]
    show (x == x && (as ++ b).isPrefixOf (as ++ c)) = _
    rw [beq_self_eq_true, Bool.true_and, ih]

theorem platformChild_prefix_cmake (root : String) :
    ((platformRootDir root).data ++ ['/']).isPrefixOf (pjoin root "cmake").data = false := by
  rw [show (platformRootDir root).data ++ ['/'] =
      root.data ++ (['/'] ++ (("platform" : String).data ++ ['/'])) from by
    rw [show (platformRootDir root).data = (root.data ++ ['/']) ++
        ("platform" : String).data from data_pjoin ..]
    simp [List.append_assoc]]
  rw [show (pjoin root "cmake").data =
      root.data ++ (['/'] ++ ("cmake" : String).data) from by
    rw [data_pjoin]
    simp [List.append_assoc]]
  rw [prefix_cancel]
  rfl

theorem modulesChild_prefix_cmake (root : String) :
    ((modulesRootDir root).data ++ ['/']).isPrefixOf (pjoin root "cmake").data = false := by
  rw [show (modulesRootDir root).data ++ ['/'] =
      root.data ++ (['/'] ++ (("modules" : String).data ++ ['/'])) from by
    rw [show (modulesRootDir root).data = (root.data ++ ['/']) ++
        ("modules" : String).data from data_pjoin ..]
    simp [List.append_assoc]]
  rw [show (pjoin root "cmake").data =
      root.data ++ (['/'] ++ ("cmake" : String).data) from by
    rw [data_pjoin]
    simp [List.append_assoc]]
  rw [prefix_cancel]
  rfl

theorem childNameL?_none_of_not_prefix {d p : List Char}
    (h : (d ++ ['/']).isPrefixOf p = false) : childNameL? d p = none := by
  unfold childNameL? dropPfx
  rw [if_neg (by rw [h]; exact Bool.false_ne_true)]
  rfl

theorem child_ne_cmakedir {root d name : String}
    (hd : (d.data ++ ['/']).isPrefixOf (pjoin root "cmake").data = false) :
    pjoin d name ≠ pjoin root "cmake" := by
  intro e
  have h1 : (d.data ++ ['/']).isPrefixOf (pjoin d name).data = true := by
    rw [data_pjoin]
    exact isPrefixOf_self_append ..
  rw [e, hd] at h1
  cases h1

theorem GenExt.listDir_eq {root : String} {fs σ : FS} (h : GenExt root fs σ)
    (d : String)
    (hd : (d.data ++ ['/']).isPrefixOf (pjoin root "cmake").data = false) :
    ∃ extraN, listDir σ d = listDir fs d ++ extraN ∧
      ∀ name ∈ extraN, pjoin d name ∉ σ.dirs := by
  obtain ⟨extra, he, hp⟩ := h.keys
  refine ⟨extra.filterMap (fun p => (childNameL? d.toList p.toList).map String.mk),
    ?_, ?_⟩
  · unfold listDir
    have hdirs : σ.dirs.filterMap
        (fun x => (childNameL? d.toList x.toList).map String.mk)
        = fs.dirs.filterMap
          (fun x => (childNameL? d.toList x.toList).map String.mk) := by
      rcases h.dirs_eq with h0 | h0
      · rw [h0]
      · rw [h0, List.filterMap_append]
        have hc : childNameL? d.data (pjoin root "cmake").data = none :=
          childNameL?_none_of_not_prefix hd
        simp [hc]
    rw [hdirs, he, List.filterMap_append, List.append_assoc]
  · intro name hname
    rcases List.mem_filterMap.mp hname with ⟨p, hpe, hpc⟩
    rcases Option.map_eq_some'.mp hpc with ⟨nm, hnm, rfl⟩
    obtain ⟨hpx, -, -⟩ := childName_shape hnm
    rw [← hpx]
    have h1 := hp p hpe
    intro hmem
    rcases h.dirs_eq with h0 | h0
    · rw [h0] at hmem
      exact h1.2 hmem
    · rw [h0] at hmem
      rcases List.mem_append.mp hmem with hm | hm
      · exact h1.2 hm
      · rcases List.mem_cons.mp hm with he2 | he2
        · exact ne_of_genName h1.1 (not_genName_cmakedir root) he2
        · cases he2

theorem GenExt.mem_dirs_iff {root : String} {fs σ : FS} (h : GenExt root fs σ)
    {q : String} (hq : q ≠ pjoin root "cmake") : q ∈ σ.dirs ↔ q ∈ fs.dirs := by
  rcases h.dirs_eq with h0 | h0
  · rw [h0]
  · rw [h0]
    constructor
    · intro hm
      rcases List.mem_append.mp hm with hm | hm
      · exact hm
      · rcases List.mem_cons.mp hm with he | he
        · exact absurd he hq
        · cases he
    · exact fun hm => List.mem_append.mpr (Or.inl hm)

theorem GenExt.parse_plat {root : String} {fs σ : FS} (h : GenExt root fs σ) :
    _parse_platform_configs σ root = _parse_platform_configs fs root := by
  obtain ⟨extraN, hld, hextra⟩ :=
    h.listDir_eq (platformRootDir root) (platformChild_prefix_cmake root)
  unfold _parse_platform_configs
  rw [hld, List.filterMap_append]
  have h2 : extraN.filterMap (fun name =>
      if pjoin (platformRootDir root) name ∈ σ.dirs then
        match findFile σ.files
            (pjoin (pjoin (platformRootDir root) name) "detect.py") with
        | some content => some (name, _parse_platform_detect name content)
        | none => none
      else none) = [] := by
    rw [List.filterMap_eq_nil_iff]
    intro name hn
    rw [if_neg (hextra name hn)]
  have h1 : (listDir fs (platformRootDir root)).filterMap (fun name =>
      if pjoin (platformRootDir root) name ∈ σ.dirs then
        match findFile σ.files
            (pjoin (pjoin (platformRootDir root) name) "detect.py") with
        | some content => some (name, _parse_platform_detect name content)
        | none => none
      else none)
      = (listDir fs (platformRootDir root)).filterMap (fun name =>
      if pjoin (platformRootDir root) name ∈ fs.dirs then
        match findFile fs.files
            (pjoin (pjoin (platformRootDir root) name) "detect.py") with
        | some content => some (name, _parse_platform_detect name content)
        | none => none
      else none) := by
    apply List.filterMap_congr
    intro name _
    have hdir := h.mem_dirs_iff
      (@child_ne_cmakedir root (platformRootDir root) name
        (platformChild_prefix_cmake root))
    by_cases hmem : pjoin (platformRootDir root) name ∈ fs.dirs
    · rw [if_pos (hdir.mpr hmem), if_pos hmem,
        h.reads _ (not_genName_detect _)]
    · rw [if_neg (fun hm => hmem (hdir.mp hm)), if_neg hmem]
  rw [h1, h2, List.append_nil]

theorem GenExt.parse_module_eq {root : String} {fs σ : FS} (h : GenExt root fs σ)
    (name : String) : _parse_module σ root name = _parse_module fs root name := by
  unfold _parse_module
  rw [h.reads _ (not_genName_scsub _)]

theorem GenExt.parse_mods {root : String} {fs σ : FS} (h : GenExt root fs σ) :
    _parse_modules σ root = _parse_modules fs root := by
  obtain ⟨extraN, hld, hextra⟩ :=
    h.listDir_eq (modulesRootDir root) (modulesChild_prefix_cmake root)
  unfold _parse_modules
  rw [hld, List.filterMap_append]
  have h2 : extraN.filterMap (fun name =>
      if pjoin (modulesRootDir root) name ∈ σ.dirs then
        some (name, _parse_module σ root name)
      else none) = [] := by
    rw [List.filterMap_eq_nil_iff]
    intro name hn
    rw [if_neg (hextra name hn)]
  have h1 : (listDir fs (modulesRootDir root)).filterMap (fun name =>
      if pjoin (modulesRootDir root) name ∈ σ.dirs then
        some (name, _parse_module σ root name)
      else none)
      = (listDir fs (modulesRootDir root)).filterMap (fun name =>
      if pjoin (modulesRootDir root) name ∈ fs.dirs then
        some (name, _parse_module fs root name)
      else none) := by
    apply List.filterMap_congr
    intro name _
    have hdir := h.mem_dirs_iff
      (@child_ne_cmakedir root (modulesRootDir root) name
        (modulesChild_prefix_cmake root))
    by_cases hmem : pjoin (modulesRootDir root) name ∈ fs.dirs
    · rw [if_pos (hdir.mpr hmem), if_pos hmem, h.parse_module_eq]
    · rw [if_neg (fun hm => hmem (hdir.mp hm)), if_neg hmem]
  rw [h1, h2, List.append_nil]

theorem GenExt.discover {root : String} {fs σ : FS} (h : GenExt root fs σ)
    (d : String) : discoverSources σ d = discoverSources fs d := by
  obtain ⟨extra, he, hp⟩ := h.keys
  have hcomp : ∀ ext ∈ srcExts,
      (σ.files.map Prod.fst).filter (fun p => underDir d p && extMatch ext p)
        = (fs.files.map Prod.fst).filter (fun p => underDir d p && extMatch ext p) := by
    intro ext hext
    rw [he, List.filter_append]
    have hnil : extra.filter (fun p => underDir d p && extMatch ext p) = [] := by
      rw [List.filter_eq_nil_iff]
      intro a ha
      rw [genName_extMatch_false (hp a ha).1 hext, Bool.and_false]
      exact Bool.false_ne_true
    rw [hnil, List.append_nil]
  unfold discoverSources
  simp only [srcExts, List.flatMap_cons, List.flatMap_nil, List.append_nil]
  rw [hcomp ".cpp" (by simp [srcExts]), hcomp ".c" (by simp [srcExts]),
    hcomp ".h" (by simp [srcExts]), hcomp ".hpp" (by simp [srcExts]),
    hcomp ".inc" (by simp [srcExts])]

theorem GenExt.pathExists_core {root : String} {fs σ : FS} (h : GenExt root fs σ)
    {lib : String} (hlib : lib ∈ core_libs) :
    pathExists σ (pjoin root lib) ↔ pathExists fs (pjoin root lib) := by
  obtain ⟨extra, he, hp⟩ := h.keys
  have hne : lib ≠ "cmake" := by
    rcases (show lib = "core" ∨ lib = "drivers" ∨ lib = "main" ∨ lib = "platform" ∨
        lib = "scene" ∨ lib = "servers" from by simpa [core_libs] using hlib) with
      rfl | rfl | rfl | rfl | rfl | rfl <;> decide
  have hdirs := h.mem_dirs_iff (q := pjoin root lib)
    (fun e => hne (pjoin_inj_right e))
  have hkeys : (pjoin root lib ∈ σ.files.map Prod.fst) ↔
      (pjoin root lib ∈ fs.files.map Prod.fst) := by
    rw [he]
    constructor
    · intro hm
      rcases List.mem_append.mp hm with hm | hm
      · exact hm
      · have := (hp _ hm).1
        rw [not_genName_corelib hlib] at this
        cases this
    · exact fun hm => List.mem_append.mpr (Or.inl hm)
  exact or_congr hdirs hkeys

/-! ## Success conditions and write plans per phase

Each emission phase succeeds exactly under a condition on the original
filesystem, and then appends a write plan computed from the original
filesystem's observations; both are invariant under `GenExt`, which is what
makes a second run reproduce the first one's writes. -/

/-- The root `CMakeLists.txt` write succeeds. -/
def RootOk (root : String) (fs : FS) : Prop :=
  pjoin root "CMakeLists.txt" ∉ fs.dirs ∧ root ∈ fs.dirs

/-- `mkdir root/cmake` (with `exist_ok`) succeeds. -/
def MkdirOk (root : String) (fs : FS) : Prop :=
  pjoin root "cmake" ∈ fs.dirs ∨
    (pjoin root "cmake" ∉ fs.files.map Prod.fst ∧ root ∈ fs.dirs)

/-- Every per-platform file write succeeds. -/
def PlatOk (root : String) (fs : FS) : Prop :=
  ∀ e ∈ _parse_platform_configs fs root,
    pjoin (pjoin root "cmake") ("platform_" ++ e.1 ++ ".cmake") ∉ fs.dirs

/-- Every core-library file write succeeds. -/
def CoreOk (root : String) (fs : FS) : Prop :=
  ∀ lib ∈ core_libs, pathExists fs (pjoin root lib) →
    pjoin root lib ∈ fs.dirs ∧ pjoin (pjoin root lib) "CMakeLists.txt" ∉ fs.dirs

/-- The umbrella write and every per-module file write succeed. -/
def ModOk (root : String) (fs : FS) : Prop :=
  (pjoin (modulesRootDir root) "CMakeLists.txt" ∉ fs.dirs ∧
    modulesRootDir root ∈ fs.dirs) ∧
  ∀ e ∈ _parse_modules fs root,
    pjoin (pjoin (modulesRootDir root) e.1) "CMakeLists.txt" ∉ fs.dirs

/-- The platform phase's write plan. -/
def platWrites (root : String) (configs : List (String × PlatformConfig)) :
    List (String × String) :=
  configs.map (fun e =>
    (pjoin (pjoin root "cmake") ("platform_" ++ e.1 ++ ".cmake"),
     joinLines (platform_cmake_lines e.1 e.2)))

/-- The core phase's write plan. -/
def coreWrites (root : String) (fs : FS) : List (String × String) :=
  core_libs.filterMap (fun lib =>
    if pathExists fs (pjoin root lib) then
      some (pjoin (pjoin root lib) "CMakeLists.txt",
        joinLines (core_cmake_lines lib (discoverSources fs (pjoin root lib))))
    else none)

/-- The module phase's write plan. -/
def modWrites (root : String) (fs : FS) (modules : List (String × ModuleConfig)) :
    List (String × String) :=
  (pjoin (modulesRootDir root) "CMakeLists.txt",
    joinLines (["# Godot modules", ""] ++
      modules.map (fun mc => "add_subdirectory(" ++ mc.1 ++ ")"))) ::
  modules.map (fun e =>
    (pjoin (pjoin (modulesRootDir root) e.1) "CMakeLists.txt",
     joinLines (module_cmake_lines e.1 e.2
       (discoverSources fs (pjoin (modulesRootDir root) e.1)))))

theorem GenExt.not_mem_dirs {root : String} {fs σ : FS} (h : GenExt root fs σ)
    {p : String} (hg : genName p = true) (hnd : p ∉ fs.dirs) : p ∉ σ.dirs := by
  intro hm
  rcases h.dirs_eq with h0 | h0
  · rw [h0] at hm; exact hnd hm
  · rw [h0] at hm
    rcases List.mem_append.mp hm with hm | hm
    · exact hnd hm
    · rcases List.mem_cons.mp hm with he | he
      · exact ne_of_genName hg (not_genName_cmakedir root) he
      · cases he

theorem writeStep_ok_eq {r : RunResult} {p c : String} (hok : r.ok = true)
    (hnd : p ∉ r.fs.dirs) (hpar : dirname p ∈ r.fs.dirs) :
    writeStep r p c =
      ⟨⟨r.fs.dirs, setFile r.fs.files p c⟩, r.writes ++ [(p, c)], r.msgs, true⟩ := by
  have hw : writeFile r.fs p c = some ⟨r.fs.dirs, setFile r.fs.files p c⟩ := by
    unfold writeFile
    rw [if_neg hnd, if_pos hpar]
  unfold writeStep
  rw [hok, if_pos rfl, hw]

theorem writeStep_ok_elim {r : RunResult} {p c : String}
    (h : (writeStep r p c).ok = true) :
    r.ok = true ∧ ∃ fs', writeFile r.fs p c = some fs' ∧
      writeStep r p c = ⟨fs', r.writes ++ [(p, c)], r.msgs, true⟩ := by
  have hok : r.ok = true := writeStep_ok_of _ _ _ h
  refine ⟨hok, ?_⟩
  unfold writeStep at h ⊢
  rw [hok, if_pos rfl] at h ⊢
  cases hw : writeFile r.fs p c with
  | none => rw [hw] at h; exact Bool.noConfusion h
  | some fs' => exact ⟨fs', rfl, rfl⟩

theorem noslash_platfname {x : String} (hx : ('/' : Char) ∉ x.data) :
    ('/' : Char) ∉ ("platform_" ++ x ++ ".cmake").data := by
  rw [String.data_append, String.data_append]
  intro hm
  rcases List.mem_append.mp hm with hm | hm
  · rcases List.mem_append.mp hm with hm | hm
    · revert hm; decide
    · exact hx hm
  · revert hm; decide

theorem listDir_no_slash {fs : FS} {d : String} :
    ∀ name ∈ listDir fs d, ('/' : Char) ∉ name.data := by
  intro name hn
  unfold listDir at hn
  rcases List.mem_append.mp hn with hn | hn <;>
  · rcases List.mem_filterMap.mp hn with ⟨x, _, hx⟩
    rcases Option.map_eq_some'.mp hx with ⟨nm, hnm, rfl⟩
    exact (childName_shape hnm).2.2

theorem parse_plat_keys_noslash {fs : FS} {root : String} :
    ∀ e ∈ _parse_platform_configs fs root, ('/' : Char) ∉ e.1.data := by
  intro e he
  unfold _parse_platform_configs at he
  rcases List.mem_filterMap.mp he with ⟨name, hmem, hf⟩
  have hname : e.1 = name := by
    split at hf
    · split at hf
      · cases hf; rfl
      · cases hf
    · cases hf
  rw [hname]
  exact listDir_no_slash name hmem

theorem parse_mods_keys_noslash {fs : FS} {root : String} :
    ∀ e ∈ _parse_modules fs root, ('/' : Char) ∉ e.1.data := by
  intro e he
  unfold _parse_modules at he
  rcases List.mem_filterMap.mp he with ⟨name, hmem, hf⟩
  have hname : e.1 = name := by
    split at hf
    · cases hf; rfl
    · cases hf
  rw [hname]
  exact listDir_no_slash name hmem

theorem parse_mods_dir_mem {fs : FS} {root : String} :
    ∀ e ∈ _parse_modules fs root, pjoin (modulesRootDir root) e.1 ∈ fs.dirs := by
  intro e he
  unfold _parse_modules at he
  rcases List.mem_filterMap.mp he with ⟨name, hmem, hf⟩
  split at hf
  · cases hf
    assumption
  · cases hf

/-! ## Phase lemmas -/

theorem warn_ok_eq {r : RunResult} {m : String} (hok : r.ok = true) :
    warn r m = ⟨r.fs, r.writes, r.msgs ++ [m], true⟩ := by
  unfold warn
  rw [hok, if_pos rfl]

theorem warn_fs (r : RunResult) (m : String) : (warn r m).fs = r.fs := by
  unfold warn
  split <;> rfl

theorem warn_ok (r : RunResult) (m : String) : (warn r m).ok = r.ok := by
  unfold warn
  split
  · rename_i h; rw [h]
  · rfl

theorem warn_writes (r : RunResult) (m : String) : (warn r m).writes = r.writes := by
  unfold warn
  split <;> rfl

theorem plat_fold_not_ok (root : String) (configs : List (String × PlatformConfig))
    {r : RunResult} (h : r.ok = false) :
    configs.foldl (fun r pc =>
      writeStep r (pjoin (pjoin root "cmake") ("platform_" ++ pc.1 ++ ".cmake"))
        (joinLines (platform_cmake_lines pc.1 pc.2))) r = r := by
  induction configs with
  | nil => rfl
  | cons pc rest ih => rw [List.foldl_cons, writeStep_not_ok h]; exact ih

theorem core_fold_not_ok (root : String) (libs : List String) {r : RunResult}
    (h : r.ok = false) : libs.foldl (emitCoreLib root) r = r := by
  induction libs with
  | nil => rfl
  | cons lib rest ih => rw [List.foldl_cons, emitCoreLib_not_ok h]; exact ih

theorem mod_fold_not_ok (root : String) (modules : List (String × ModuleConfig))
    {r : RunResult} (h : r.ok = false) :
    modules.foldl (emitModuleFile root) r = r := by
  induction modules with
  | nil => rfl
  | cons mc rest ih => rw [List.foldl_cons, emitModuleFile_not_ok h]; exact ih

/-- The root write: forward direction. -/
theorem root_run {root : String} {fs : FS} {r : RunResult}
    (options : List (String × PyOption)) (hG : GenExt root fs r.fs)
    (hok : r.ok = true) (hR : RootOk root fs) :
    (_generate_root_cmakelists root options r).ok = true ∧
    GenExt root fs (_generate_root_cmakelists root options r).fs ∧
    (_generate_root_cmakelists root options r).fs.dirs = r.fs.dirs ∧
    (_generate_root_cmakelists root options r).writes = r.writes ++
      [(pjoin root "CMakeLists.txt", joinLines (root_cmakelists_lines options))] := by
  obtain ⟨hnd, hroot⟩ := hR
  have hnd' : pjoin root "CMakeLists.txt" ∉ r.fs.dirs :=
    hG.not_mem_dirs (genName_cmakelists root) hnd
  have hpar : dirname (pjoin root "CMakeLists.txt") ∈ r.fs.dirs := by
    rw [dirname_pjoin _ _ (by decide)]
    exact hG.dirs_sub hroot
  unfold _generate_root_cmakelists
  rw [writeStep_ok_eq hok hnd' hpar]
  refine ⟨rfl, ?_, rfl, rfl⟩
  exact hG.write (genName_cmakelists root)
    (by unfold writeFile; rw [if_neg hnd', if_pos hpar])

/-- The root write: extracting its success condition from a live run whose
directory set is still the original one. -/
theorem root_elim {root : String} {fs : FS} {r : RunResult}
    {options : List (String × PyOption)} (hdirs1 : r.fs.dirs = fs.dirs)
    (h : (_generate_root_cmakelists root options r).ok = true) :
    r.ok = true ∧ RootOk root fs := by
  obtain ⟨hok, fs', hw, -⟩ := writeStep_ok_elim h
  obtain ⟨-, hnd, hpar⟩ := writeFile_some hw
  rw [hdirs1] at hnd hpar
  rw [dirname_pjoin _ _ (by decide)] at hpar
  exact ⟨hok, hnd, hpar⟩

/-- The `mkdir` step: forward direction. -/
theorem mkdir_run {root : String} {fs : FS} {r : RunResult}
    (hG : GenExt root fs r.fs) (hok : r.ok = true) (hM : MkdirOk root fs) :
    (mkdirStep r (pjoin root "cmake")).ok = true ∧
    GenExt root fs (mkdirStep r (pjoin root "cmake")).fs ∧
    (mkdirStep r (pjoin root "cmake")).writes = r.writes ∧
    pjoin root "cmake" ∈ (mkdirStep r (pjoin root "cmake")).fs.dirs := by
  unfold mkdirStep
  rw [hok, if_pos rfl]
  by_cases h1 : pjoin root "cmake" ∈ r.fs.dirs
  · rw [if_pos h1]
    exact ⟨hok, hG, rfl, h1⟩
  · rw [if_neg h1]
    rcases hM with hM | ⟨hMf, hMr⟩
    · exact absurd (hG.dirs_sub hM) h1
    · have h2 : pjoin root "cmake" ∉ r.fs.files.map Prod.fst := by
        obtain ⟨extra, he, hp⟩ := hG.keys
        rw [he]
        intro hm
        rcases List.mem_append.mp hm with hm | hm
        · exact hMf hm
        · have := (hp _ hm).1
          rw [not_genName_cmakedir root] at this
          cases this
      rw [if_neg h2]
      have h3 : dirname (pjoin root "cmake") ∈ r.fs.dirs := by
        rw [dirname_pjoin _ _ (by decide)]
        exact hG.dirs_sub hMr
      rw [if_pos h3]
      refine ⟨rfl, ⟨?_, hG.keys, hG.reads⟩, rfl, ?_⟩
      · rcases hG.dirs_eq with h0 | h0
        · rw [h0]; exact Or.inr rfl
        · exfalso
          apply h1
          rw [h0]
          exact List.mem_append.mpr (Or.inr (List.mem_cons_self ..))
      · exact List.mem_append.mpr (Or.inr (List.mem_cons_self ..))

/-- The `mkdir` step: extraction. -/
theorem mkdir_elim {root : String} {fs : FS} {r : RunResult}
    (hG : GenExt root fs r.fs) (hdirs1 : r.fs.dirs = fs.dirs)
    (h : (mkdirStep r (pjoin root "cmake")).ok = true) :
    r.ok = true ∧ MkdirOk root fs := by
  have hok : r.ok = true := by
    cases hr : r.ok
    · unfold mkdirStep at h
      rw [hr] at h
      exact Bool.noConfusion (hr ▸ h)
    · rfl
  refine ⟨hok, ?_⟩
  unfold mkdirStep at h
  rw [hok, if_pos rfl] at h
  by_cases h1 : pjoin root "cmake" ∈ r.fs.dirs
  · left
    rw [← hdirs1]
    exact h1
  · rw [if_neg h1] at h
    by_cases h2 : pjoin root "cmake" ∈ r.fs.files.map Prod.fst
    · rw [if_pos h2] at h
      exact Bool.noConfusion h
    · rw [if_neg h2] at h
      by_cases h3 : dirname (pjoin root "cmake") ∈ r.fs.dirs
      · right
        constructor
        · obtain ⟨extra, he, hp⟩ := hG.keys
          intro hm
          apply h2
          rw [he]
          exact List.mem_append.mpr (Or.inl hm)
        · rw [dirname_pjoin _ _ (by decide), hdirs1] at h3
          exact h3
      · rw [if_neg h3] at h
        exact Bool.noConfusion h

/-- The per-platform write fold: forward direction. -/
theorem plat_fold_run (root : String) (fs : FS)
    (configs : List (String × PlatformConfig)) :
    ∀ r : RunResult, GenExt root fs r.fs → r.ok = true →
    pjoin root "cmake" ∈ r.fs.dirs →
    (∀ e ∈ configs,
      pjoin (pjoin root "cmake") ("platform_" ++ e.1 ++ ".cmake") ∉ fs.dirs) →
    (∀ e ∈ configs, ('/' : Char) ∉ e.1.data) →
    ((configs.foldl (fun r pc =>
        writeStep r (pjoin (pjoin root "cmake") ("platform_" ++ pc.1 ++ ".cmake"))
          (joinLines (platform_cmake_lines pc.1 pc.2))) r).ok = true ∧
     GenExt root fs (configs.foldl (fun r pc =>
        writeStep r (pjoin (pjoin root "cmake") ("platform_" ++ pc.1 ++ ".cmake"))
          (joinLines (platform_cmake_lines pc.1 pc.2))) r).fs ∧
     (configs.foldl (fun r pc =>
        writeStep r (pjoin (pjoin root "cmake") ("platform_" ++ pc.1 ++ ".cmake"))
          (joinLines (platform_cmake_lines pc.1 pc.2))) r).fs.dirs = r.fs.dirs ∧
     (configs.foldl (fun r pc =>
        writeStep r (pjoin (pjoin root "cmake") ("platform_" ++ pc.1 ++ ".cmake"))
          (joinLines (platform_cmake_lines pc.1 pc.2))) r).writes =
       r.writes ++ platWrites root configs) := by
  induction configs with
  | nil =>
    intro r hG hok hcm hC hS
    exact ⟨hok, hG, rfl, by simp [platWrites]⟩
  | cons pc rest ih =>
    intro r hG hok hcm hC hS
    have hg := genName_platfile (pjoin root "cmake") pc.1
    have hnd : pjoin (pjoin root "cmake") ("platform_" ++ pc.1 ++ ".cmake") ∉
        r.fs.dirs :=
      hG.not_mem_dirs hg (hC pc (List.mem_cons_self ..))
    have hpar : dirname (pjoin (pjoin root "cmake")
        ("platform_" ++ pc.1 ++ ".cmake")) ∈ r.fs.dirs := by
      rw [dirname_pjoin _ _ (noslash_platfname (hS pc (List.mem_cons_self ..)))]
      exact hcm
    rw [List.foldl_cons, writeStep_ok_eq hok hnd hpar]
    have hG' : GenExt root fs ⟨r.fs.dirs, setFile r.fs.files
        (pjoin (pjoin root "cmake") ("platform_" ++ pc.1 ++ ".cmake"))
        (joinLines (platform_cmake_lines pc.1 pc.2))⟩ :=
      hG.write hg (by unfold writeFile; rw [if_neg hnd, if_pos hpar])
    obtain ⟨hok', hG'', hdirs', hwr'⟩ := ih
      ⟨⟨r.fs.dirs, setFile r.fs.files
          (pjoin (pjoin root "cmake") ("platform_" ++ pc.1 ++ ".cmake"))
          (joinLines (platform_cmake_lines pc.1 pc.2))⟩,
        r.writes ++ [(pjoin (pjoin root "cmake")
          ("platform_" ++ pc.1 ++ ".cmake"),
          joinLines (platform_cmake_lines pc.1 pc.2))], r.msgs, true⟩
      hG' rfl hcm
      (fun e he => hC e (List.mem_cons_of_mem _ he))
      (fun e he => hS e (List.mem_cons_of_mem _ he))
    refine ⟨hok', hG'', hdirs', ?_⟩
    rw [hwr']
    show (r.writes ++ [_]) ++ platWrites root rest = r.writes ++ platWrites root (pc :: rest)
    rw [List.append_assoc]
    rfl

/-- The per-platform write fold: extraction. -/
theorem plat_fold_elim (root : String) (fs : FS)
    (configs : List (String × PlatformConfig)) :
    ∀ r : RunResult, GenExt root fs r.fs →
    ((configs.foldl (fun r pc =>
        writeStep r (pjoin (pjoin root "cmake") ("platform_" ++ pc.1 ++ ".cmake"))
          (joinLines (platform_cmake_lines pc.1 pc.2))) r).ok = true) →
    (r.ok = true ∧ ∀ e ∈ configs,
      pjoin (pjoin root "cmake") ("platform_" ++ e.1 ++ ".cmake") ∉ fs.dirs) := by
  induction configs with
  | nil =>
    intro r hG h
    exact ⟨h, by intro e he; cases he⟩
  | cons pc rest ih =>
    intro r hG hfin
    rw [List.foldl_cons] at hfin
    have hstep : (writeStep r (pjoin (pjoin root "cmake")
        ("platform_" ++ pc.1 ++ ".cmake"))
        (joinLines (platform_cmake_lines pc.1 pc.2))).ok = true := by
      cases hs : (writeStep r (pjoin (pjoin root "cmake")
          ("platform_" ++ pc.1 ++ ".cmake"))
          (joinLines (platform_cmake_lines pc.1 pc.2))).ok
      · rw [plat_fold_not_ok root rest hs] at hfin
        exact absurd hfin (by rw [hs]; exact Bool.noConfusion)
      · rfl
    obtain ⟨hok, fs', hw, heq⟩ := writeStep_ok_elim hstep
    obtain ⟨hfs', hnd, -⟩ := writeFile_some hw
    have hG' : GenExt root fs (writeStep r (pjoin (pjoin root "cmake")
        ("platform_" ++ pc.1 ++ ".cmake"))
        (joinLines (platform_cmake_lines pc.1 pc.2))).fs := by
      rw [heq]
      exact hG.write (genName_platfile ..) hw
    obtain ⟨-, hrest⟩ := ih _ hG' hfin
    refine ⟨hok, ?_⟩
    intro e he
    rcases List.mem_cons.mp he with rfl | he
    · exact fun hm => hnd (hG.dirs_sub hm)
    · exact hrest e he

theorem core_lib_ne_cmake {lib : String} (hlib : lib ∈ core_libs) : lib ≠ "cmake" := by
  rcases (show lib = "core" ∨ lib = "drivers" ∨ lib = "main" ∨ lib = "platform" ∨
      lib = "scene" ∨ lib = "servers" from by simpa [core_libs] using hlib) with
    rfl | rfl | rfl | rfl | rfl | rfl <;> decide

/-- One core-library iteration: forward direction. -/
theorem emitCoreLib_run {root : String} {fs : FS} {r : RunResult} {lib : String}
    (hG : GenExt root fs r.fs) (hok : r.ok = true) (hlib : lib ∈ core_libs)
    (hC : pathExists fs (pjoin root lib) →
      pjoin root lib ∈ fs.dirs ∧ pjoin (pjoin root lib) "CMakeLists.txt" ∉ fs.dirs) :
    (emitCoreLib root r lib).ok = true ∧ GenExt root fs (emitCoreLib root r lib).fs ∧
    (emitCoreLib root r lib).fs.dirs = r.fs.dirs ∧
    (emitCoreLib root r lib).writes = r.writes ++
      (if pathExists fs (pjoin root lib) then
        [(pjoin (pjoin root lib) "CMakeLists.txt",
          joinLines (core_cmake_lines lib (discoverSources fs (pjoin root lib))))]
       else []) := by
  unfold emitCoreLib
  by_cases hpe : pathExists fs (pjoin root lib)
  · obtain ⟨hdir, hnot⟩ := hC hpe
    rw [if_pos ((hG.pathExists_core hlib).mpr hpe), hG.discover, if_pos hpe]
    have hnd' : pjoin (pjoin root lib) "CMakeLists.txt" ∉ r.fs.dirs :=
      hG.not_mem_dirs (genName_cmakelists _) hnot
    have hpar' : dirname (pjoin (pjoin root lib) "CMakeLists.txt") ∈ r.fs.dirs := by
      rw [dirname_pjoin _ _ (by decide)]
      exact hG.dirs_sub hdir
    by_cases hemp : (discoverSources fs (pjoin root lib)).isEmpty
    · rw [if_pos hemp, warn_ok_eq hok,
        writeStep_ok_eq (r := ⟨r.fs, r.writes,
          r.msgs ++ ["Warning: No source files found for library " ++ lib ++ " in " ++
            pjoin root lib], true⟩) rfl hnd' hpar']
      refine ⟨rfl, ?_, rfl, rfl⟩
      exact hG.write (genName_cmakelists _)
        (by unfold writeFile; rw [if_neg hnd', if_pos hpar'])
    · rw [if_neg hemp, writeStep_ok_eq hok hnd' hpar']
      refine ⟨rfl, ?_, rfl, rfl⟩
      exact hG.write (genName_cmakelists _)
        (by unfold writeFile; rw [if_neg hnd', if_pos hpar'])
  · rw [if_neg (fun hm => hpe ((hG.pathExists_core hlib).mp hm)), if_neg hpe,
      List.append_nil]
    exact ⟨hok, hG, rfl, rfl⟩

/-- One core-library iteration: extraction. -/
theorem emitCoreLib_elim {root : String} {fs : FS} {r : RunResult} {lib : String}
    (hG : GenExt root fs r.fs) (hlib : lib ∈ core_libs)
    (h : (emitCoreLib root r lib).ok = true) :
    r.ok = true ∧ GenExt root fs (emitCoreLib root r lib).fs ∧
    (pathExists fs (pjoin root lib) →
      pjoin root lib ∈ fs.dirs ∧ pjoin (pjoin root lib) "CMakeLists.txt" ∉ fs.dirs) := by
  unfold emitCoreLib at h ⊢
  by_cases hpe' : pathExists r.fs (pjoin root lib)
  · rw [if_pos hpe'] at h ⊢
    obtain ⟨hok', fs', hw, heq⟩ := writeStep_ok_elim h
    have hifok : (if (discoverSources r.fs (pjoin root lib)).isEmpty then
        warn r ("Warning: No source files found for library " ++ lib ++ " in " ++
          pjoin root lib)
      else r).ok = r.ok := by
      split
      · exact warn_ok ..
      · rfl
    have hok : r.ok = true := by rw [hifok] at hok'; exact hok'
    have hiffs : (if (discoverSources r.fs (pjoin root lib)).isEmpty then
        warn r ("Warning: No source files found for library " ++ lib ++ " in " ++
          pjoin root lib)
      else r).fs = r.fs := by
      split
      · exact warn_fs ..
      · rfl
    rw [hiffs] at hw
    obtain ⟨-, hnd, hpar⟩ := writeFile_some hw
    refine ⟨hok, ?_, fun _ => ⟨?_, ?_⟩⟩
    · rw [heq]
      exact hG.write (genName_cmakelists _) hw
    · rw [dirname_pjoin _ _ (by decide)] at hpar
      exact (hG.mem_dirs_iff
        (fun e => core_lib_ne_cmake hlib (pjoin_inj_right e))).mp hpar
    · exact fun hm => hnd (hG.dirs_sub hm)
  · rw [if_neg hpe'] at h ⊢
    exact ⟨h, hG, fun hpe => absurd ((hG.pathExists_core hlib).mpr hpe) hpe'⟩

/-- The core fold: forward direction. -/
theorem core_fold_run (root : String) (fs : FS) (libs : List String) :
    ∀ r : RunResult, GenExt root fs r.fs → r.ok = true →
    (∀ lib ∈ libs, lib ∈ core_libs) →
    (∀ lib ∈ libs, pathExists fs (pjoin root lib) →
      pjoin root lib ∈ fs.dirs ∧ pjoin (pjoin root lib) "CMakeLists.txt" ∉ fs.dirs) →
    ((libs.foldl (emitCoreLib root) r).ok = true ∧
     GenExt root fs (libs.foldl (emitCoreLib root) r).fs ∧
     (libs.foldl (emitCoreLib root) r).fs.dirs = r.fs.dirs ∧
     (libs.foldl (emitCoreLib root) r).writes = r.writes ++
       libs.filterMap (fun lib =>
         if pathExists fs (pjoin root lib) then
           some (pjoin (pjoin root lib) "CMakeLists.txt",
             joinLines (core_cmake_lines lib (discoverSources fs (pjoin root lib))))
         else none)) := by
  induction libs with
  | nil =>
    intro r hG hok _ _
    exact ⟨hok, hG, rfl, by simp⟩
  | cons lib rest ih =>
    intro r hG hok hmem hC
    rw [List.foldl_cons]
    obtain ⟨hok1, hG1, hdirs1, hwr1⟩ := emitCoreLib_run hG hok
      (hmem lib (List.mem_cons_self ..)) (hC lib (List.mem_cons_self ..))
    obtain ⟨hok2, hG2, hdirs2, hwr2⟩ := ih (emitCoreLib root r lib) hG1 hok1
      (fun l hl => hmem l (List.mem_cons_of_mem _ hl))
      (fun l hl => hC l (List.mem_cons_of_mem _ hl))
    refine ⟨hok2, hG2, by rw [hdirs2, hdirs1], ?_⟩
    rw [hwr2, hwr1, List.append_assoc, List.filterMap_cons]
    by_cases hpe : pathExists fs (pjoin root lib)
    · simp [hpe]
    · simp [hpe]

/-- The core fold: extraction. -/
theorem core_fold_elim (root : String) (fs : FS) (libs : List String) :
    ∀ r : RunResult, GenExt root fs r.fs → (∀ lib ∈ libs, lib ∈ core_libs) →
    ((libs.foldl (emitCoreLib root) r).ok = true) →
    (r.ok = true ∧ GenExt root fs (libs.foldl (emitCoreLib root) r).fs ∧
      ∀ lib ∈ libs, pathExists fs (pjoin root lib) →
        pjoin root lib ∈ fs.dirs ∧
          pjoin (pjoin root lib) "CMakeLists.txt" ∉ fs.dirs) := by
  induction libs with
  | nil =>
    intro r hG _ h
    exact ⟨h, hG, fun l hl => absurd hl (List.not_mem_nil _)⟩
  | cons lib rest ih =>
    intro r hG hmem hfin
    rw [List.foldl_cons] at hfin ⊢
    have hstep : (emitCoreLib root r lib).ok = true := by
      cases hs : (emitCoreLib root r lib).ok
      · rw [core_fold_not_ok root rest hs] at hfin
        exact absurd hfin (by rw [hs]; exact Bool.noConfusion)
      · rfl
    obtain ⟨hok, hG1, hcond⟩ := emitCoreLib_elim hG (hmem lib (List.mem_cons_self ..))
      hstep
    obtain ⟨-, hG2, hrest⟩ := ih _ hG1
      (fun l hl => hmem l (List.mem_cons_of_mem _ hl)) hfin
    exact ⟨hok, hG2, fun l hl =>
      (List.mem_cons.mp hl).elim (fun e => e ▸ hcond) (hrest l)⟩

theorem mkdirStep_not_ok {r : RunResult} {p : String} (h : r.ok = false) :
    mkdirStep r p = r := by
  unfold mkdirStep
  rw [h]
  rfl

/-- One per-module iteration: forward direction. -/
theorem emitModuleFile_run {root : String} {fs : FS} {r : RunResult}
    {mc : String × ModuleConfig} (hG : GenExt root fs r.fs) (hok : r.ok = true)
    (hdir : pjoin (modulesRootDir root) mc.1 ∈ fs.dirs)
    (hnot : pjoin (pjoin (modulesRootDir root) mc.1) "CMakeLists.txt" ∉ fs.dirs) :
    (emitModuleFile root r mc).ok = true ∧
    GenExt root fs (emitModuleFile root r mc).fs ∧
    (emitModuleFile root r mc).fs.dirs = r.fs.dirs ∧
    (emitModuleFile root r mc).writes = r.writes ++
      [(pjoin (pjoin (modulesRootDir root) mc.1) "CMakeLists.txt",
        joinLines (module_cmake_lines mc.1 mc.2
          (discoverSources fs (pjoin (modulesRootDir root) mc.1))))] := by
  unfold emitModuleFile
  rw [hG.discover]
  have hnd' : pjoin (pjoin (modulesRootDir root) mc.1) "CMakeLists.txt" ∉
      r.fs.dirs :=
    hG.not_mem_dirs (genName_cmakelists _) hnot
  have hpar' : dirname (pjoin (pjoin (modulesRootDir root) mc.1)
      "CMakeLists.txt") ∈ r.fs.dirs := by
    rw [dirname_pjoin _ _ (by decide)]
    exact hG.dirs_sub hdir
  by_cases hemp : (discoverSources fs (pjoin (modulesRootDir root) mc.1)).isEmpty
  · rw [if_pos hemp, warn_ok_eq hok,
      writeStep_ok_eq (r := ⟨r.fs, r.writes,
        r.msgs ++ ["Warning: No source files found for module " ++ mc.1 ++ " in " ++
          pjoin (modulesRootDir root) mc.1], true⟩) rfl hnd' hpar']
    refine ⟨rfl, ?_, rfl, rfl⟩
    exact hG.write (genName_cmakelists _)
      (by unfold writeFile; rw [if_neg hnd', if_pos hpar'])
  · rw [if_neg hemp, writeStep_ok_eq hok hnd' hpar']
    refine ⟨rfl, ?_, rfl, rfl⟩
    exact hG.write (genName_cmakelists _)
      (by unfold writeFile; rw [if_neg hnd', if_pos hpar'])

/-- One per-module iteration: extraction. -/
theorem emitModuleFile_elim {root : String} {fs : FS} {r : RunResult}
    {mc : String × ModuleConfig} (hG : GenExt root fs r.fs)
    (h : (emitModuleFile root r mc).ok = true) :
    r.ok = true ∧ GenExt root fs (emitModuleFile root r mc).fs ∧
    pjoin (pjoin (modulesRootDir root) mc.1) "CMakeLists.txt" ∉ fs.dirs := by
  unfold emitModuleFile at h ⊢
  obtain ⟨hok', fs', hw, heq⟩ := writeStep_ok_elim h
  have hifok : (if (discoverSources r.fs (pjoin (modulesRootDir root) mc.1)).isEmpty
      then warn r ("Warning: No source files found for module " ++ mc.1 ++ " in " ++
        pjoin (modulesRootDir root) mc.1)
      else r).ok = r.ok := by
    split
    · exact warn_ok ..
    · rfl
  have hiffs : (if (discoverSources r.fs (pjoin (modulesRootDir root) mc.1)).isEmpty
      then warn r ("Warning: No source files found for module " ++ mc.1 ++ " in " ++
        pjoin (modulesRootDir root) mc.1)
      else r).fs = r.fs := by
    split
    · exact warn_fs ..
    · rfl
  rw [hiffs] at hw
  obtain ⟨-, hnd, -⟩ := writeFile_some hw
  refine ⟨by rw [hifok] at hok'; exact hok', ?_, fun hm => hnd (hG.dirs_sub hm)⟩
  rw [heq]
  exact hG.write (genName_cmakelists _) hw

/-- The per-module fold: forward direction. -/
theorem mod_fold_run (root : String) (fs : FS)
    (modules : List (String × ModuleConfig)) :
    ∀ r : RunResult, GenExt root fs r.fs → r.ok = true →
    (∀ e ∈ modules, pjoin (modulesRootDir root) e.1 ∈ fs.dirs) →
    (∀ e ∈ modules,
      pjoin (pjoin (modulesRootDir root) e.1) "CMakeLists.txt" ∉ fs.dirs) →
    ((modules.foldl (emitModuleFile root) r).ok = true ∧
     GenExt root fs (modules.foldl (emitModuleFile root) r).fs ∧
     (modules.foldl (emitModuleFile root) r).writes = r.writes ++
       modules.map (fun e =>
         (pjoin (pjoin (modulesRootDir root) e.1) "CMakeLists.txt",
          joinLines (module_cmake_lines e.1 e.2
            (discoverSources fs (pjoin (modulesRootDir root) e.1)))))) := by
  induction modules with
  | nil =>
    intro r hG hok _ _
    exact ⟨hok, hG, by simp⟩
  | cons mc rest ih =>
    intro r hG hok hdir hnot
    rw [List.foldl_cons]
    obtain ⟨hok1, hG1, -, hwr1⟩ := emitModuleFile_run hG hok
      (hdir mc (List.mem_cons_self ..)) (hnot mc (List.mem_cons_self ..))
    obtain ⟨hok2, hG2, hwr2⟩ := ih (emitModuleFile root r mc) hG1 hok1
      (fun e he => hdir e (List.mem_cons_of_mem _ he))
      (fun e he => hnot e (List.mem_cons_of_mem _ he))
    refine ⟨hok2, hG2, ?_⟩
    rw [hwr2, hwr1, List.append_assoc, List.map_cons]
    rfl

/-- The per-module fold: extraction. -/
theorem mod_fold_elim (root : String) (fs : FS)
    (modules : List (String × ModuleConfig)) :
    ∀ r : RunResult, GenExt root fs r.fs →
    ((modules.foldl (emitModuleFile root) r).ok = true) →
    (r.ok = true ∧ GenExt root fs (modules.foldl (emitModuleFile root) r).fs ∧
      ∀ e ∈ modules,
        pjoin (pjoin (modulesRootDir root) e.1) "CMakeLists.txt" ∉ fs.dirs) := by
  induction modules with
  | nil =>
    intro r hG h
    exact ⟨h, hG, fun e he => absurd he (List.not_mem_nil _)⟩
  | cons mc rest ih =>
    intro r hG hfin
    rw [List.foldl_cons] at hfin ⊢
    have hstep : (emitModuleFile root r mc).ok = true := by
      cases hs : (emitModuleFile root r mc).ok
      · rw [mod_fold_not_ok root rest hs] at hfin
        exact absurd hfin (by rw [hs]; exact Bool.noConfusion)
      · rfl
    obtain ⟨hok, hG1, hcond⟩ := emitModuleFile_elim hG hstep
    obtain ⟨-, hG2, hrest⟩ := ih _ hG1 hfin
    exact ⟨hok, hG2, fun e he =>
      (List.mem_cons.mp he).elim (fun h => h ▸ hcond) (hrest e)⟩

theorem plat_gen_eq (root : String) (configs : List (String × PlatformConfig))
    (r : RunResult) :
    _generate_platform_cmake_files root configs r =
      configs.foldl (fun r pc =>
        writeStep r (pjoin (pjoin root "cmake") ("platform_" ++ pc.1 ++ ".cmake"))
          (joinLines (platform_cmake_lines pc.1 pc.2)))
        (mkdirStep r (pjoin root "cmake")) := rfl

theorem core_gen_eq (root : String) (r : RunResult) :
    _generate_core_cmake_files root r = core_libs.foldl (emitCoreLib root) r := rfl

theorem mod_gen_eq (root : String) (modules : List (String × ModuleConfig))
    (r : RunResult) :
    _generate_module_cmake_files root modules r =
      modules.foldl (emitModuleFile root)
        (writeStep r (pjoin (modulesRootDir root) "CMakeLists.txt")
          (joinLines (["# Godot modules", ""] ++
            modules.map (fun mc => "add_subdirectory(" ++ mc.1 ++ ")")))) := rfl

theorem plat_gen_not_ok {root : String} {configs : List (String × PlatformConfig)}
    {r : RunResult} (h : r.ok = false) :
    _generate_platform_cmake_files root configs r = r := by
  rw [plat_gen_eq, mkdirStep_not_ok h, plat_fold_not_ok root configs h]

theorem core_gen_not_ok {root : String} {r : RunResult} (h : r.ok = false) :
    _generate_core_cmake_files root r = r := by
  rw [core_gen_eq, core_fold_not_ok root core_libs h]

theorem mod_gen_not_ok {root : String} {modules : List (String × ModuleConfig)}
    {r : RunResult} (h : r.ok = false) :
    _generate_module_cmake_files root modules r = r := by
  rw [mod_gen_eq, writeStep_not_ok h, mod_fold_not_ok root modules h]

theorem convert_some {root : String} {fs : FS} {content : String}
    (hsc : findFile fs.files (pjoin root "SConstruct") = some content) :
    convert root fs =
      _generate_module_cmake_files root (_parse_modules fs root)
        (_generate_core_cmake_files root
          (_generate_platform_cmake_files root (_parse_platform_configs fs root)
            (_generate_root_cmakelists root (_parse_sconstruct_content content)
              ⟨fs, [], [], true⟩))) := by
  unfold convert
  rw [hsc]

/-- The platform phase: forward direction. -/
theorem plat_phase_run {root : String} {fs : FS} {r : RunResult}
    {configs : List (String × PlatformConfig)} (hG : GenExt root fs r.fs)
    (hok : r.ok = true) (hM : MkdirOk root fs)
    (hP : ∀ e ∈ configs,
      pjoin (pjoin root "cmake") ("platform_" ++ e.1 ++ ".cmake") ∉ fs.dirs)
    (hS : ∀ e ∈ configs, ('/' : Char) ∉ e.1.data) :
    (_generate_platform_cmake_files root configs r).ok = true ∧
    GenExt root fs (_generate_platform_cmake_files root configs r).fs ∧
    (_generate_platform_cmake_files root configs r).writes =
      r.writes ++ platWrites root configs := by
  rw [plat_gen_eq]
  obtain ⟨hok2, hG2, hwr2, hcm⟩ := mkdir_run hG hok hM
  obtain ⟨hok3, hG3, -, hwr3⟩ := plat_fold_run root fs configs _ hG2 hok2 hcm hP hS
  exact ⟨hok3, hG3, by rw [hwr3, hwr2]⟩

/-- The platform phase: extraction. -/
theorem plat_phase_elim {root : String} {fs : FS} {r : RunResult}
    {configs : List (String × PlatformConfig)} (hG : GenExt root fs r.fs)
    (hdirs1 : r.fs.dirs = fs.dirs)
    (h : (_generate_platform_cmake_files root configs r).ok = true) :
    r.ok = true ∧ MkdirOk root fs ∧
    ∀ e ∈ configs,
      pjoin (pjoin root "cmake") ("platform_" ++ e.1 ++ ".cmake") ∉ fs.dirs := by
  rw [plat_gen_eq] at h
  have hmk : (mkdirStep r (pjoin root "cmake")).ok = true := by
    cases hs : (mkdirStep r (pjoin root "cmake")).ok
    · rw [plat_fold_not_ok root configs hs] at h
      exact absurd h (by rw [hs]; exact Bool.noConfusion)
    · rfl
  obtain ⟨hok, hM⟩ := mkdir_elim hG hdirs1 hmk
  obtain ⟨-, hGmk, -, -⟩ := mkdir_run hG hok hM
  obtain ⟨-, hP⟩ := plat_fold_elim root fs configs _ hGmk h
  exact ⟨hok, hM, hP⟩

/-- The core-library phase: forward direction. -/
theorem core_phase_run {root : String} {fs : FS} {r : RunResult}
    (hG : GenExt root fs r.fs) (hok : r.ok = true) (hC : CoreOk root fs) :
    (_generate_core_cmake_files root r).ok = true ∧
    GenExt root fs (_generate_core_cmake_files root r).fs ∧
    (_generate_core_cmake_files root r).writes = r.writes ++ coreWrites root fs := by
  rw [core_gen_eq]
  obtain ⟨hok4, hG4, -, hwr4⟩ := core_fold_run root fs core_libs r hG hok
    (fun l hl => hl) hC
  exact ⟨hok4, hG4, hwr4⟩

/-- The core-library phase: extraction. -/
theorem core_phase_elim {root : String} {fs : FS} {r : RunResult}
    (hG : GenExt root fs r.fs)
    (h : (_generate_core_cmake_files root r).ok = true) :
    r.ok = true ∧ GenExt root fs (_generate_core_cmake_files root r).fs ∧
    CoreOk root fs := by
  rw [core_gen_eq] at h ⊢
  exact core_fold_elim root fs core_libs r hG (fun l hl => hl) h

/-- The module phase: forward direction. -/
theorem mod_phase_run {root : String} {fs : FS} {r : RunResult}
    (modules : List (String × ModuleConfig)) (hG : GenExt root fs r.fs)
    (hok : r.ok = true)
    (hM1 : pjoin (modulesRootDir root) "CMakeLists.txt" ∉ fs.dirs)
    (hM2 : modulesRootDir root ∈ fs.dirs)
    (hdir : ∀ e ∈ modules, pjoin (modulesRootDir root) e.1 ∈ fs.dirs)
    (hnot : ∀ e ∈ modules,
      pjoin (pjoin (modulesRootDir root) e.1) "CMakeLists.txt" ∉ fs.dirs) :
    (_generate_module_cmake_files root modules r).ok = true ∧
    GenExt root fs (_generate_module_cmake_files root modules r).fs ∧
    (_generate_module_cmake_files root modules r).writes =
      r.writes ++ modWrites root fs modules := by
  rw [mod_gen_eq]
  have hgu := genName_cmakelists (modulesRootDir root)
  have hnd' : pjoin (modulesRootDir root) "CMakeLists.txt" ∉ r.fs.dirs :=
    hG.not_mem_dirs hgu hM1
  have hpar' : dirname (pjoin (modulesRootDir root) "CMakeLists.txt") ∈
      r.fs.dirs := by
    rw [dirname_pjoin _ _ (by decide)]
    exact hG.dirs_sub hM2
  rw [writeStep_ok_eq hok hnd' hpar']
  have hGu : GenExt root fs (⟨r.fs.dirs, setFile r.fs.files
      (pjoin (modulesRootDir root) "CMakeLists.txt")
      (joinLines (["# Godot modules", ""] ++
        modules.map (fun mc => "add_subdirectory(" ++ mc.1 ++ ")")))⟩ : FS) :=
    hG.write hgu (by unfold writeFile; rw [if_neg hnd', if_pos hpar'])
  obtain ⟨hok5, hG5, hwr5⟩ := mod_fold_run root fs modules
    ⟨⟨r.fs.dirs, setFile r.fs.files
        (pjoin (modulesRootDir root) "CMakeLists.txt")
        (joinLines (["# Godot modules", ""] ++
          modules.map (fun mc => "add_subdirectory(" ++ mc.1 ++ ")")))⟩,
      r.writes ++ [(pjoin (modulesRootDir root) "CMakeLists.txt",
        joinLines (["# Godot modules", ""] ++
          modules.map (fun mc => "add_subdirectory(" ++ mc.1 ++ ")")))],
      r.msgs, true⟩ hGu rfl hdir hnot
  refine ⟨hok5, hG5, ?_⟩
  rw [hwr5]
  rw [List.append_assoc]
  rfl

/-- The module phase: extraction. -/
theorem mod_phase_elim {root : String} {fs : FS} {r : RunResult}
    {modules : List (String × ModuleConfig)} (hG : GenExt root fs r.fs)
    (h : (_generate_module_cmake_files root modules r).ok = true) :
    r.ok = true ∧
    (pjoin (modulesRootDir root) "CMakeLists.txt" ∉ fs.dirs ∧
      modulesRootDir root ∈ fs.dirs) ∧
    ∀ e ∈ modules,
      pjoin (pjoin (modulesRootDir root) e.1) "CMakeLists.txt" ∉ fs.dirs := by
  rw [mod_gen_eq] at h
  have hstep : (writeStep r (pjoin (modulesRootDir root) "CMakeLists.txt")
      (joinLines (["# Godot modules", ""] ++
        modules.map (fun mc => "add_subdirectory(" ++ mc.1 ++ ")")))).ok = true := by
    cases hs : (writeStep r (pjoin (modulesRootDir root) "CMakeLists.txt")
        (joinLines (["# Godot modules", ""] ++
          modules.map (fun mc => "add_subdirectory(" ++ mc.1 ++ ")")))).ok
    · rw [mod_fold_not_ok root modules hs] at h
      exact absurd h (by rw [hs]; exact Bool.noConfusion)
    · rfl
  obtain ⟨hok, fs', hw, heq⟩ := writeStep_ok_elim hstep
  obtain ⟨-, hnd, hpar⟩ := writeFile_some hw
  rw [dirname_pjoin _ _ (by decide)] at hpar
  have hG1 : GenExt root fs (writeStep r
      (pjoin (modulesRootDir root) "CMakeLists.txt")
      (joinLines (["# Godot modules", ""] ++
        modules.map (fun mc => "add_subdirectory(" ++ mc.1 ++ ")")))).fs := by
    rw [heq]
    exact hG.write (genName_cmakelists _) hw
  obtain ⟨-, -, hrest⟩ := mod_fold_elim root fs modules _ hG1 h
  refine ⟨hok, ⟨fun hm => hnd (hG.dirs_sub hm), ?_⟩, hrest⟩
  exact (hG.mem_dirs_iff (fun e =>
    (by decide : ¬("modules" : String) = "cmake") (pjoin_inj_right e))).mp hpar

/-- A full run over a generated extension of `fs`: always the same outcome. -/
theorem convert_run (root : String) (fs σ : FS) (content : String)
    (hG : GenExt root fs σ)
    (hsc : findFile σ.files (pjoin root "SConstruct") = some content)
    (hR : RootOk root fs) (hM : MkdirOk root fs) (hP : PlatOk root fs)
    (hC : CoreOk root fs) (hMod : ModOk root fs) :
    (convert root σ).ok = true ∧ GenExt root fs (convert root σ).fs ∧
    (convert root σ).writes =
      (pjoin root "CMakeLists.txt",
        joinLines (root_cmakelists_lines (_parse_sconstruct_content content))) ::
      (platWrites root (_parse_platform_configs fs root) ++ coreWrites root fs ++
       modWrites root fs (_parse_modules fs root)) := by
  rw [convert_some hsc, hG.parse_plat, hG.parse_mods]
  obtain ⟨hok1, hG1, hdirs1, hwr1⟩ :=
    root_run (r := ⟨σ, [], [], true⟩) (_parse_sconstruct_content content) hG rfl hR
  obtain ⟨hok2, hG2, hwr2⟩ := plat_phase_run hG1 hok1 hM hP parse_plat_keys_noslash
  obtain ⟨hok3, hG3, hwr3⟩ := core_phase_run hG2 hok2 hC
  obtain ⟨hok4, hG4, hwr4⟩ := mod_phase_run (_parse_modules fs root) hG3 hok3
    hMod.1.1 hMod.1.2 parse_mods_dir_mem hMod.2
  refine ⟨hok4, hG4, ?_⟩
  rw [hwr4, hwr3, hwr2, hwr1]
  simp [List.append_assoc]

/-- A successful run certifies every phase's filesystem preconditions. -/
theorem convert_elim (root : String) (fs : FS) (content : String)
    (hsc : findFile fs.files (pjoin root "SConstruct") = some content)
    (h : (convert root fs).ok = true) :
    RootOk root fs ∧ MkdirOk root fs ∧ PlatOk root fs ∧ CoreOk root fs ∧
      ModOk root fs := by
  rw [convert_some hsc] at h
  have hok3 : (_generate_core_cmake_files root
      (_generate_platform_cmake_files root (_parse_platform_configs fs root)
        (_generate_root_cmakelists root (_parse_sconstruct_content content)
          ⟨fs, [], [], true⟩))).ok = true := by
    cases hs : (_generate_core_cmake_files root
        (_generate_platform_cmake_files root (_parse_platform_configs fs root)
          (_generate_root_cmakelists root (_parse_sconstruct_content content)
            ⟨fs, [], [], true⟩))).ok
    · rw [mod_gen_not_ok hs] at h
      exact absurd h (by rw [hs]; exact Bool.noConfusion)
    · rfl
  have hok2 : (_generate_platform_cmake_files root (_parse_platform_configs fs root)
      (_generate_root_cmakelists root (_parse_sconstruct_content content)
        ⟨fs, [], [], true⟩)).ok = true := by
    cases hs : (_generate_platform_cmake_files root (_parse_platform_configs fs root)
        (_generate_root_cmakelists root (_parse_sconstruct_content content)
          ⟨fs, [], [], true⟩)).ok
    · rw [core_gen_not_ok hs] at hok3
      exact absurd hok3 (by rw [hs]; exact Bool.noConfusion)
    · rfl
  have hok1 : (_generate_root_cmakelists root (_parse_sconstruct_content content)
      ⟨fs, [], [], true⟩).ok = true := by
    cases hs : (_generate_root_cmakelists root (_parse_sconstruct_content content)
        ⟨fs, [], [], true⟩).ok
    · rw [plat_gen_not_ok hs] at hok2
      exact absurd hok2 (by rw [hs]; exact Bool.noConfusion)
    · rfl
  obtain ⟨-, hR⟩ := root_elim rfl hok1
  obtain ⟨-, hG1, hdirs1, -⟩ :=
    root_run (r := ⟨fs, [], [], true⟩) (_parse_sconstruct_content content)
      (GenExt.refl root fs) rfl hR
  obtain ⟨-, hM, hP⟩ := plat_phase_elim hG1 hdirs1 hok2
  obtain ⟨-, hG2, -⟩ := plat_phase_run hG1 hok1 hM hP parse_plat_keys_noslash
  obtain ⟨-, hG3, hC⟩ := core_phase_elim hG2 hok3
  obtain ⟨-, hMod1, hMod2⟩ := mod_phase_elim hG3 h
  exact ⟨hR, hM, hP, hC, ⟨hMod1, hMod2⟩⟩

/-- C9: running the full pipeline (collection then emission) a second time,
over the filesystem state left behind by a successful first run, collects the
same model and emits the same write sequence byte for byte, and succeeds: the
generated files deposited by the first run change neither what the second run
collects nor what it emits. -/
theorem c9_pipeline_idempotent (root : String) (fs : FS)
    (h1 : (convert root fs).ok = true) :
    (convert root (convert root fs).fs).writes = (convert root fs).writes ∧
    (convert root (convert root fs).fs).ok = true := by
  cases hsc : findFile fs.files (pjoin root "SConstruct") with
  | none =>
    have hc : convert root fs = ⟨fs, [], [], false⟩ := by
      unfold convert
      rw [hsc]
    rw [hc] at h1
    exact Bool.noConfusion h1
  | some content =>
    obtain ⟨hR, hM, hP, hC, hMod⟩ := convert_elim root fs content hsc h1
    obtain ⟨-, hG1, hw1⟩ := convert_run root fs fs content (GenExt.refl root fs)
      hsc hR hM hP hC hMod
    have hsc2 : findFile (convert root fs).fs.files (pjoin root "SConstruct") =
        some content :=
      (hG1.reads _ (not_genName_sconstruct root)).trans hsc
    obtain ⟨hok2, -, hw2⟩ := convert_run root fs (convert root fs).fs content hG1
      hsc2 hR hM hP hC hMod
    exact ⟨hw2.trans hw1.symm, hok2⟩

/-- Witness for C9 at a concrete tree: a root holding an `SConstruct` and an
empty `modules` directory; the first run succeeds and the second run repeats
its writes exactly. -/
theorem c9_pipeline_idempotent_witness :
    (convert "r" ⟨["r", "r/modules"], [("r/SConstruct", "")]⟩).ok = true ∧
    (convert "r" (convert "r" ⟨["r", "r/modules"],
        [("r/SConstruct", "")]⟩).fs).writes =
      (convert "r" ⟨["r", "r/modules"], [("r/SConstruct", "")]⟩).writes :=
  ⟨by decide, (c9_pipeline_idempotent "r" ⟨["r", "r/modules"],
    [("r/SConstruct", "")]⟩ (by decide)).1⟩

end GodotCmake
